import Mathlib

/-!
Verification of the javelin network protocol (`packages/net/src/protocol.ts`).

The development shallowly embeds the message-composition buffer, the wire
encoder and the wire decoder.  Buffers are `List Nat` of byte values; a
fixed-width view codec of width `w` writes a value as `w` big-endian bytes of
its residue modulo `256 ^ w`, matching the `DataView` reads and writes of the
source.  The repository ships only `protocol.ts`; the collaborating
`@javelin/model` and `@javelin/pack` packages (schema trees, flattening,
component encode/decode, view codecs) are not under `src/` and are modelled
from the specification where noted.
-/

namespace Javelin

/-- Big-endian bytes of `v % 256 ^ w`, as written by a fixed-width view codec
(`uint8`, `uint16`, `uint32` from `@javelin/pack`; widths per the spec's wire
table). -/
def writeBytes : Nat → Nat → List Nat
  | 0, _ => []
  | w + 1, v => (v / 256 ^ w) % 256 :: writeBytes w v

/-- Read `w` big-endian bytes of a buffer starting at `off` (out-of-range
positions read as zero; the source's `DataView` would throw instead, and no
claim evaluates an out-of-range read). -/
def readNat (l : List Nat) (off : Nat) : Nat → Nat
  | 0 => 0
  | w + 1 => l.getD off 0 * 256 ^ w + readNat l (off + 1) w

@[simp] theorem writeBytes_length (w v : Nat) : (writeBytes w v).length = w := by
  induction w generalizing v with
  | zero => rfl
  | succ w ih => simpa [writeBytes] using ih v

theorem getD_of_drop {l : List Nat} {off : Nat} {b : Nat} {t : List Nat}
    (h : l.drop off = b :: t) : l.getD off 0 = b ∧ l.drop (off + 1) = t := by
  induction off generalizing l with
  | zero => cases l <;> simp_all
  | succ off ih =>
    cases l with
    | nil => simp at h
    | cons x xs =>
      simp only [List.drop_succ_cons] at h
      simpa [List.getD] using ih h

/-- Advance a `drop` fact across an already-identified prefix. -/
theorem drop_advance {l : List Nat} {off : Nat} {a rest : List Nat}
    (h : l.drop off = a ++ rest) : l.drop (off + a.length) = rest := by
  induction a generalizing off with
  | nil => simpa using h
  | cons b t ih =>
    have h' := getD_of_drop (t := t ++ rest) (by simpa using h)
    have := ih h'.2
    simpa [Nat.add_comm, Nat.add_left_comm] using this

theorem mod_mul_pow (v a b : Nat) (ha : 0 < a) (hb : 0 < b) :
    v % (a * b) = a * (v / a % b) + v % a := by
  have h1 : v / a % b < b := Nat.mod_lt _ hb
  have h2 : v % a < a := Nat.mod_lt _ ha
  have h2' : v % a < a * b := by
    have ha' : a * 1 ≤ a * b := Nat.mul_le_mul_left a hb
    omega
  have h3 : a * (v / a % b) + v % a < a * b := by
    have h4 : a * (v / a % b + 1) ≤ a * b := Nat.mul_le_mul_left a (Nat.succ_le_of_lt h1)
    have h5 : a * (v / a % b + 1) = a * (v / a % b) + a := by ring
    omega
  conv_lhs => rw [← Nat.div_add_mod v a]
  rw [Nat.add_mod, Nat.mul_mod_mul_left, Nat.mod_eq_of_lt h2', Nat.mod_eq_of_lt h3]

/-- Reading back the bytes a view codec wrote recovers the value modulo the
codec's range. -/
theorem readNat_writeBytes {l : List Nat} {o w v : Nat} {rest : List Nat}
    (h : l.drop o = writeBytes w v ++ rest) : readNat l o w = v % 256 ^ w := by
  induction w generalizing o with
  | zero => simp [readNat, Nat.mod_one]
  | succ w ih =>
    have h' := getD_of_drop (b := (v / 256 ^ w) % 256) (t := writeBytes w v ++ rest)
      (by simpa [writeBytes] using h)
    have ihh := ih (o := o + 1) h'.2
    have hm : v % (256 ^ w * 256) = v / 256 ^ w % 256 * 256 ^ w + v % 256 ^ w := by
      rw [mod_mul_pow v (256 ^ w) 256 (Nat.pos_pow_of_pos w (by norm_num)) (by norm_num)]
      ring
    simp only [readNat, h'.1, ihh, pow_succ]
    rw [hm]

mutual
/-- Modelled from the spec: a `ModelNode` of `@javelin/model` (not under
`src/`) is either Primitive, carried here as the codec's byte width, or
Object with ordered children.  The mutual list type keeps the recursion
structural. -/
inductive ModelNode where
  | prim (width : Nat)
  | obj (children : ModelNodeList)
inductive ModelNodeList where
  | nil
  | cons (hd : ModelNode) (tl : ModelNodeList)
end

/-- Number of child nodes in a `ModelNodeList`. -/
def nodesLen : ModelNodeList → Nat
  | .nil => 0
  | .cons _ tl => nodesLen tl + 1

/-- Modelled from the spec: a Model of `@javelin/model` maps component-type
ids to schema trees; insertion order is that of the authoring registry. -/
def Model := List (Nat × ModelNode)

/-- Modelled from the spec: the flattened model gives, per component-type id,
an ordered sequence of field-index-addressable nodes. -/
def ModelFlat := List (Nat × List ModelNode)

/-- First-match association lookup (the `Map.get` / object-index read of the
source). -/
def alistGet {α : Type} : List (Nat × α) → Nat → Option α
  | [], _ => none
  | (k, v) :: rest, k' => if k = k' then some v else alistGet rest k'

/-- Lookup with a default. -/
def alistGetD {α : Type} (l : List (Nat × α)) (k : Nat) (d : α) : α :=
  (alistGet l k).getD d

/-- `Map.set` of the source: replace the first binding of the key in place,
else append (JavaScript `Map` preserves insertion order). -/
def alistSet {α : Type} : List (Nat × α) → Nat → α → List (Nat × α)
  | [], k, v => [(k, v)]
  | (k', v') :: rest, k, v =>
    if k' = k then (k, v) :: rest else (k', v') :: alistSet rest k v

mutual
/-- Modelled from the spec: pre-order flattening of one schema tree, giving
the field-index-to-node sequence used for O(1) codec lookup; every node of
the tree, compound nodes included, receives an index. -/
def flattenNode : ModelNode → List ModelNode
  | .prim w => [.prim w]
  | .obj cs => .obj cs :: flattenNodes cs
def flattenNodes : ModelNodeList → List ModelNode
  | .nil => []
  | .cons c cs => flattenNode c ++ flattenNodes cs
end

/-- Modelled from the spec: `flattenModel` of `@javelin/model`, applied once
per Model. -/
def flattenModel (m : Model) : ModelFlat :=
  m.map (fun e => (e.1, flattenNode e.2))

mutual
/-- Widths of the primitive leaves of a schema tree, in schema order; the
byte layout of one encoded component. -/
def leaves : ModelNode → List Nat
  | .prim w => [w]
  | .obj cs => leavesList cs
def leavesList : ModelNodeList → List Nat
  | .nil => []
  | .cons c cs => leaves c ++ leavesList cs
end

/-- Modelled from the spec: a component is a typed record tagged with its
component-type id (`_tid` in the source); its field values are carried as the
list of leaf values in schema order, each a bit pattern for the leaf's
codec. -/
structure Component where
  tid : Nat
  values : List Nat

/-- Modelled from the spec: `encode(component, schema)` of `@javelin/pack` —
each leaf value written with its codec, back to back. -/
def encodeComponentBytes (n : ModelNode) (values : List Nat) : List Nat :=
  (List.zipWith writeBytes (leaves n) values).flatten

/-- Read leaf values back, sequentially, each with its codec width. -/
def readLeaves : List Nat → List Nat → Nat → List Nat
  | [], _, _ => []
  | w :: ws, buf, off => readNat buf off w :: readLeaves ws buf (off + w)

/-- Modelled from the spec: `decode(encodedComponent, schema)` of
`@javelin/pack`.  An unknown component-type id would crash the source; the
decoder below only reaches this with the schema resolved. -/
def decodeComponentValues (n : ModelNode) (buf : List Nat) : List Nat :=
  readLeaves (leaves n) buf 0

/-! Modelled from the spec: the wire form of the model section is, per
component type, a 1-byte component-type id followed by the schema encoding
(`encodeModel` of `net/model.ts`, not under `src/`).  The schema encoding
serializes a tree pre-order: tag byte 0 plus width byte for a primitive, tag
byte 1 plus child-count byte for an object. -/
mutual
/-- One schema tree's wire bytes (see the module comment on the model
section's wire form). -/
def encodeNodeBytes : ModelNode → List Nat
  | .prim w => [0, w % 256]
  | .obj cs => 1 :: nodesLen cs % 256 :: encodeNodesBytes cs
def encodeNodesBytes : ModelNodeList → List Nat
  | .nil => []
  | .cons c cs => encodeNodeBytes c ++ encodeNodesBytes cs
end

/-- Modelled from the spec: `encodeModel` of `net/model.ts` — the model
section payload, entries in model order. -/
def encodeModel : Model → List Nat
  | [] => []
  | (tid, n) :: rest => (tid % 256 :: encodeNodeBytes n) ++ encodeModel rest

mutual
/-- Modelled from the spec: `decodeSchema` of `net/model.ts` reconstructs one
schema tree from its wire bytes.  The fuel argument only bounds recursion
depth; any fuel at least the node count suffices, and the decoder below
passes the section length.  A malformed schema is a fatal protocol-version
mismatch (spec section 7), modelled as `none`. -/
def decodeSchemaF : Nat → List Nat → Option (ModelNode × List Nat)
  | _ + 1, 0 :: w :: rest => some (.prim w, rest)
  | f + 1, 1 :: n :: rest =>
    match decodeSchemasF f n rest with
    | some (cs, r) => some (.obj cs, r)
    | none => none
  | _, _ => none
def decodeSchemasF : Nat → Nat → List Nat → Option (ModelNodeList × List Nat)
  | _, 0, bytes => some (.nil, bytes)
  | f + 1, n + 1, bytes =>
    match decodeSchemaF f bytes with
    | some (c, r) =>
      match decodeSchemasF f n r with
      | some (cs, r') => some (.cons c cs, r')
      | none => none
    | none => none
  | 0, _ + 1, _ => none
end

/-- Modelled from the spec: the model-section entry loop of `decodeModel`
(protocol.ts:438-443) together with `createModel` — entries are read in wire
order.  The fuel bounds the entry count; the section length is always
enough. -/
def decodeModelEntriesF : Nat → List Nat → Except String Model
  | _, [] => .ok []
  | 0, _ :: _ => .error "Failed to decode model: malformed schema"
  | f + 1, tid :: rest =>
    match decodeSchemaF rest.length rest with
    | some (n, r) =>
      match decodeModelEntriesF f r with
      | .ok es => .ok ((tid, n) :: es)
      | .error e => .error e
    | none => .error "Failed to decode model: malformed schema"

/-- One pending write instruction of a `Part` (protocol.ts:29-33 keeps two
parallel arrays `data` and `type`; an entry is a value with a view codec, or
a raw pre-encoded buffer whose `type` slot is `null`). -/
inductive PartEntry where
  | val (v : Nat) (width : Nat)
  | buf (bytes : List Nat)

/-- A message section accumulator: pending write instructions plus the
running byte length (protocol.ts:29-33). -/
structure Part where
  data : List PartEntry
  byteLength : Nat

/-- `createPart` (protocol.ts:74-80). -/
def createPart : Part := { data := [], byteLength := 0 }

/-- `insert` (protocol.ts:175-179): push a value with its view codec and add
the codec's width to the running byte length. -/
def insert (p : Part) (v : Nat) (width : Nat) : Part :=
  { data := p.data ++ [.val v width], byteLength := p.byteLength + width }

/-- `insertBuffer` (protocol.ts:205-209). -/
def insertBuffer (p : Part) (b : List Nat) : Part :=
  { data := p.data ++ [.buf b], byteLength := p.byteLength + b.length }

/-- Modelled from the spec: a `Change` of a `ChangeSet` (`@javelin/model`,
not under `src/`): flattened field index, optional traverse path of 16-bit
keys, and the new value. -/
structure Change where
  field : Nat
  traverse : Option (List Nat)
  value : Nat

/-- One slot of a ChangeSet's `fields`: the sparse `NO_OP` sentinel or an
actual change. -/
inductive FieldEntry where
  | noOp
  | change (c : Change)

/-- Modelled from the spec: a `ChangeSet` carries its field slots and a
`fieldsCount` counter, destructured separately by the source. -/
structure ChangeSet where
  fields : List FieldEntry
  fieldsCount : Nat

/-- A message: the eight parts in their fixed order, the patch part's
entity-to-component-to-ChangeSet map (protocol.ts:52-54), and the model the
message was built against (protocol.ts:68-72). -/
structure Message where
  partTick : Part
  partModel : Part
  partSpawn : Part
  partAttach : Part
  partUpdate : Part
  partPatch : Part
  changeMapByEntity : List (Nat × List (Nat × ChangeSet))
  partDetach : Part
  partDestroy : Part
  model : Model
  modelFlat : ModelFlat

/-- The `parts` tuple by index (tick, model, spawn, attach, update, patch,
detach, destroy).  Only indices 0-7 occur; the source's tuple has exactly
eight elements. -/
def partAt (m : Message) : Nat → Part
  | 0 => m.partTick
  | 1 => m.partModel
  | 2 => m.partSpawn
  | 3 => m.partAttach
  | 4 => m.partUpdate
  | 5 => m.partPatch
  | 6 => m.partDetach
  | 7 => m.partDestroy
  | _ => createPart

/-- `createMessage` (protocol.ts:253-270): every part empty except the model
part, which is seeded with the encoded model. -/
def createMessage (model : Model) : Message :=
  { partTick := createPart
    partModel := insertBuffer createPart (encodeModel model)
    partSpawn := createPart
    partAttach := createPart
    partUpdate := createPart
    partPatch := createPart
    changeMapByEntity := []
    partDetach := createPart
    partDestroy := createPart
    model := model
    modelFlat := flattenModel model }

/-- The component loop of `insertEntityComponents` (protocol.ts:192-202):
per component, its type id with `uint8`, the encoded component's byte length
with `uint16`, then the pre-encoded component bytes.  A component type id
missing from the model crashes the source inside `encode`; that is carried
as an error. -/
def insertComponents (model : Model) : Part → List Component → Except String Part
  | p, [] => .ok p
  | p, c :: rest =>
    match alistGet model c.tid with
    | some n =>
      let componentEncoded := encodeComponentBytes n c.values
      insertComponents model
        (insertBuffer (insert (insert p c.tid 1) componentEncoded.length 2) componentEncoded) rest
    | none => .error "Failed to encode component: component type not registered with model"

/-- `insertEntityComponents` (protocol.ts:181-203): entity with `uint32`,
component count with `uint8`, then the per-component records. -/
def insertEntityComponents (p : Part) (entity : Nat) (components : List Component)
    (model : Model) : Except String Part :=
  insertComponents model (insert (insert p entity 4) components.length 1) components

/-- `spawn` (protocol.ts:303-307). -/
def spawn (m : Message) (entity : Nat) (components : List Component) :
    Except String Message :=
  (insertEntityComponents m.partSpawn entity components m.model).map
    (fun p => { m with partSpawn := p })

/-- `attach` (protocol.ts:309-313). -/
def attach (m : Message) (entity : Nat) (components : List Component) :
    Except String Message :=
  (insertEntityComponents m.partAttach entity components m.model).map
    (fun p => { m with partAttach := p })

/-- `update` (protocol.ts:315-319). -/
def update (m : Message) (entity : Nat) (components : List Component) :
    Except String Message :=
  (insertEntityComponents m.partUpdate entity components m.model).map
    (fun p => { m with partUpdate := p })

/-- The component-id loop of `detach` (protocol.ts:405-407). -/
def insertDetachIds : Part → List Nat → Part
  | p, [] => p
  | p, i :: rest => insertDetachIds (insert p i 1) rest

/-- `detach` (protocol.ts:396-408): entity, id count, then raw type ids. -/
def detach (m : Message) (entity : Nat) (componentIds : List Nat) : Message :=
  { m with partDetach :=
      (insertDetachIds (insert (insert m.partDetach entity 4) componentIds.length 1)
        componentIds) }

/-- `destroy` (protocol.ts:410-413). -/
def destroy (m : Message) (entity : Nat) : Message :=
  { m with partDestroy := insert m.partDestroy entity 4 }

/-- `tick` (protocol.ts:415-418). -/
def tick (m : Message) (t : Nat) : Message :=
  { m with partTick := insert m.partTick t 4 }

/-- `copy` (protocol.ts:272-285): for each of the eight parts, append the
source part's `data`/`type` entries to the destination part and add its byte
length.  The patch part's `changeMapByEntity` is not touched — the loop only
sees the `data`, `type` and `byteLength` fields. -/
def copyPart (src dst : Part) : Part :=
  { data := dst.data ++ src.data, byteLength := dst.byteLength + src.byteLength }

/-- `copy` (protocol.ts:272-285). -/
def copy (fromMsg toMsg : Message) : Message :=
  { toMsg with
    partTick := copyPart fromMsg.partTick toMsg.partTick
    partModel := copyPart fromMsg.partModel toMsg.partModel
    partSpawn := copyPart fromMsg.partSpawn toMsg.partSpawn
    partAttach := copyPart fromMsg.partAttach toMsg.partAttach
    partUpdate := copyPart fromMsg.partUpdate toMsg.partUpdate
    partPatch := copyPart fromMsg.partPatch toMsg.partPatch
    partDetach := copyPart fromMsg.partDetach toMsg.partDetach
    partDestroy := copyPart fromMsg.partDestroy toMsg.partDestroy }

/-- `reset` (protocol.ts:287-301): the patch case clears the change map and
falls through into the default, so every part — the model part included —
has its `data`, `type` and `byteLength` cleared. -/
def reset (m : Message) : Message :=
  { m with
    partTick := createPart
    partModel := createPart
    partSpawn := createPart
    partAttach := createPart
    partUpdate := createPart
    partPatch := createPart
    changeMapByEntity := []
    partDetach := createPart
    partDestroy := createPart }

/-- The traverse-key count of a change (`traverse?.length ?? 0`). -/
def traverseLen (c : Change) : Nat := (c.traverse.getD []).length

/-- The field loop of `calcChangeByteLength` (protocol.ts:329-350): per
non-`NO_OP` change, a field byte, a traverse-length byte, two bytes per
traverse key, then the value at its codec's width.  A non-primitive target
node fires the source's assertion; a field index outside the flattened model
crashes the source on an undefined node — both are carried as errors. -/
def calcFields (nodes : List ModelNode) : List FieldEntry → Except String Nat
  | [] => .ok 0
  | .noOp :: rest => calcFields nodes rest
  | .change c :: rest =>
    match nodes[c.field]? with
    | some (.prim w) =>
      (calcFields nodes rest).map (fun n => 1 + 1 + 2 * traverseLen c + w + n)
    | some (.obj _) =>
      .error "Failed to encode change: only primitive field mutations are currently supported"
    | none => .error "Failed to encode change: field node not found"

/-- `calcChangeByteLength` (protocol.ts:321-353). -/
def calcChangeByteLength (changeSet : ChangeSet) (nodes : List ModelNode) :
    Except String Nat :=
  calcFields nodes changeSet.fields

/-- `patch` (protocol.ts:355-394), with the source's mutation order made
explicit: a message state is returned together with the raised assertion, if
any, because the source mutates the change map before validating the new
ChangeSet.  The byte-length update uses truncated subtraction; on every
state whose patch byte length accounts for its stored ChangeSets (the
`patchInv` invariant below) this agrees with the source's exact integer
arithmetic. -/
def patch (m : Message) (entity : Nat) (componentId : Nat) (changeSet : ChangeSet) :
    Message × Option String :=
  if changeSet.fieldsCount = 0 then (m, none)
  else
    let found := alistGet m.changeMapByEntity entity
    let changeMap := found.getD []
    let m1 :=
      match found with
      | some _ => m
      | none => { m with changeMapByEntity := alistSet m.changeMapByEntity entity [] }
    let extraEntity : Nat := match found with | some _ => 0 | none => 4
    let componentFieldTypes := alistGetD m.modelFlat componentId []
    match alistGet changeMap componentId with
    | some existingChanges =>
      match calcChangeByteLength existingChanges componentFieldTypes with
      | .error e => (m1, some e)
      | .ok oldLen =>
        let m2 := { m1 with changeMapByEntity :=
          (alistSet m1.changeMapByEntity entity (alistSet changeMap componentId changeSet)) }
        match calcChangeByteLength changeSet componentFieldTypes with
        | .error e => (m2, some e)
        | .ok newLen =>
          ({ m2 with partPatch :=
              { m2.partPatch with byteLength :=
                  (m2.partPatch.byteLength + extraEntity + newLen - oldLen) } }, none)
    | none =>
      let m2 := { m1 with changeMapByEntity :=
        (alistSet m1.changeMapByEntity entity (alistSet changeMap componentId changeSet)) }
      match calcChangeByteLength changeSet componentFieldTypes with
      | .error e => (m2, some e)
      | .ok newLen =>
        ({ m2 with partPatch :=
            { m2.partPatch with byteLength :=
                (m2.partPatch.byteLength + extraEntity + 1 + 1 + newLen) } }, none)

/-- The wire bytes of one pending write instruction. -/
def entryBytes : PartEntry → List Nat
  | .val v w => writeBytes w v
  | .buf b => b

/-- The payload bytes of a non-patch part: each pending instruction written
back to back (the default branch of `encodePart`, protocol.ts:153-169). -/
def partPayload (p : Part) : List Nat := (p.data.map entryBytes).flatten

/-- The per-field write loop of `encodePart`'s patch branch
(protocol.ts:119-148): field byte, traverse-length byte, 16-bit traverse
keys, then the value via the codec found at the field's index in the
flattened model.  Both source assertions (non-primitive node, node that is
not a view) are carried as errors; the modelled primitive node always holds
its codec, so the `isView` assertion cannot fire separately here. -/
def encodeFieldsBytes (nodes : List ModelNode) : List FieldEntry → Except String (List Nat)
  | [] => .ok []
  | .noOp :: rest => encodeFieldsBytes nodes rest
  | .change c :: rest =>
    let head := writeBytes 1 c.field ++ writeBytes 1 (traverseLen c) ++
      ((c.traverse.getD []).map (writeBytes 2)).flatten
    match nodes[c.field]? with
    | some (.prim w) =>
      (encodeFieldsBytes nodes rest).map (fun tl => head ++ writeBytes w c.value ++ tl)
    | some (.obj _) =>
      .error "Failed to encode patch: only primitive field mutations are currently supported"
    | none => .error "Failed to encode patch: field node not found"

/-- The per-component loop of `encodePart`'s patch branch
(protocol.ts:110-149): component id byte, field-count byte, then the field
records. -/
def encodeChangeMapBytes (flat : ModelFlat) : List (Nat × ChangeSet) → Except String (List Nat)
  | [] => .ok []
  | (cid, cs) :: rest =>
    match encodeFieldsBytes (alistGetD flat cid []) cs.fields with
    | .error e => .error e
    | .ok fb =>
      match encodeChangeMapBytes flat rest with
      | .error e => .error e
      | .ok tl => .ok (writeBytes 1 cid ++ writeBytes 1 cs.fieldsCount ++ fb ++ tl)

/-- The per-entity loop of `encodePart`'s patch branch (protocol.ts:106-150):
entity id, then the component records, in map insertion order. -/
def encodePatchBytes (flat : ModelFlat) :
    List (Nat × List (Nat × ChangeSet)) → Except String (List Nat)
  | [] => .ok []
  | (e, cm) :: rest =>
    match encodeChangeMapBytes flat cm with
    | .error err => .error err
    | .ok cmb =>
      match encodePatchBytes flat rest with
      | .error err => .error err
      | .ok tl => .ok (writeBytes 4 e ++ cmb ++ tl)

/-- `encodePart` (protocol.ts:92-173): the 2-byte length header holding the
part's running byte length, then the payload — the change-map walk for the
patch section, the pending instructions otherwise. -/
def encodePart (m : Message) (i : Nat) : Except String (List Nat) :=
  if i = 5 then
    (encodePatchBytes m.modelFlat m.changeMapByEntity).map
      (fun pl => writeBytes 2 m.partPatch.byteLength ++ pl)
  else .ok (writeBytes 2 (partAt m i).byteLength ++ partPayload (partAt m i))

/-- The write loop of `encodeMessage` (protocol.ts:234-247), threading the
message state through each section exactly as the source passes `message`
into `encodePart`: a section is its header plus payload, except that the
model section is written as a bare zero header when `includeModel` is
false. -/
def encodePartsS (includeModel : Bool) : Message → List Nat → Except String (List Nat × Message)
  | m, [] => .ok ([], m)
  | m, i :: rest =>
    match (if i == 1 && !includeModel then .ok (writeBytes 2 0, m)
           else (encodePart m i).map (fun b => (b, m))) with
    | .error e => .error e
    | .ok (b, m') =>
      match encodePartsS includeModel m' rest with
      | .error e => .error e
      | .ok (tl, m'') => .ok (b ++ tl, m'')

/-- The fixed section order: tick, model, spawn, attach, update, patch,
detach, destroy. -/
def partsIndexList : List Nat := [0, 1, 2, 3, 4, 5, 6, 7]

/-- The length computation of `encodeMessage` (protocol.ts:216-227): a
2-byte header per section plus each section's byte length, the model's
counted as zero when `includeModel` is false. -/
def encodeMessageLength (m : Message) (includeModel : Bool) : Nat :=
  partsIndexList.foldl
    (fun acc i => acc + 2 + if i == 1 && !includeModel then 0 else (partAt m i).byteLength) 0

/-- `encodeMessage` (protocol.ts:211-250): allocate the computed length,
write the sections in order, return the buffer (and the message the source
left behind).  Positions past the final write offset keep the fresh
buffer's zero bytes, exactly as an under-written `ArrayBuffer` would; a
write past the end would throw in the source and cannot happen on states
whose byte lengths are accounted (see `messageWF`). -/
def encodeMessage (m : Message) (includeModel : Bool) :
    Except String (List Nat × Message) :=
  match encodePartsS includeModel m partsIndexList with
  | .error e => .error e
  | .ok (w, m') =>
    .ok (w ++ List.replicate (encodeMessageLength m includeModel - w.length) 0, m')

/-- The encoded buffer alone. -/
def encodeBytes (m : Message) (includeModel : Bool) : Except String (List Nat) :=
  (encodeMessage m includeModel).map Prod.fst

/-- One decoded handler invocation, in call order (`DecodeMessageHandlers`,
protocol.ts:541-555; `onPatch` receives the raw buffer and the offset of the
patch section's header). -/
inductive DecodeEvent where
  | onTick (t : Nat)
  | onModel (m : Model)
  | onCreate (entity : Nat) (components : List Component)
  | onAttach (entity : Nat) (components : List Component)
  | onUpdate (entity : Nat) (components : List Component)
  | onPatch (offset : Nat)
  | onDetach (entity : Nat) (componentTypeIds : List Nat)
  | onDestroy (entity : Nat)

/-- The component loop of `decodeEntityComponentsPart` (protocol.ts:469-485),
returning the bytes consumed past the entity header together with the
decoded components.  A component type id absent from the model would crash
the source inside `decode`; it is modelled as an empty value list and is
unreachable on buffers encoded from conforming messages. -/
def decodeComponentsLoop (buffer : List Nat) (model : Model) (offset : Nat) :
    Nat → Nat × List Component
  | 0 => (0, [])
  | n + 1 =>
    let componentTypeId := readNat buffer offset 1
    let encodedComponentLength := readNat buffer (offset + 1) 2
    let encodedComponent := (buffer.drop (offset + 3)).take encodedComponentLength
    let values :=
      match alistGet model componentTypeId with
      | some node => decodeComponentValues node encodedComponent
      | none => []
    let rest := decodeComponentsLoop buffer model (offset + 3 + encodedComponentLength) n
    (3 + encodedComponentLength + rest.1,
      { tid := componentTypeId, values := values } :: rest.2)

/-- The record loop of `decodeEntityComponentsPart` (protocol.ts:462-488).
`endPos` is the section's header position plus its declared length, exactly
as the source computes `end` before advancing past the header; every record
is at least five bytes, so the loop exits precisely at the section
boundary. -/
def decodeEntityRecords (buffer : List Nat) (model : Model) (endPos : Nat) :
    Nat → Nat × List (Nat × List Component)
  | offset =>
    if h : offset < endPos then
      let entity := readNat buffer offset 4
      let componentLength := readNat buffer (offset + 4) 1
      let inner := decodeComponentsLoop buffer model (offset + 5) componentLength
      let restR := decodeEntityRecords buffer model endPos (offset + 5 + inner.1)
      (restR.1, (entity, inner.2) :: restR.2)
    else (offset, [])
  termination_by offset => endPos - offset
  decreasing_by omega

/-- `decodeEntityComponentsPart` (protocol.ts:450-491). -/
def decodeEntityComponentsPart (buffer : List Nat) (model : Model) (offset : Nat) :
    Nat × List (Nat × List Component) :=
  let length := readNat buffer offset 2
  decodeEntityRecords buffer model (offset + length) (offset + 2)

/-- The component-type-id loop of `decodeDetach` (protocol.ts:510-514). -/
def decodeIdsLoop (buffer : List Nat) (offset : Nat) : Nat → List Nat
  | 0 => []
  | n + 1 => readNat buffer offset 1 :: decodeIdsLoop buffer (offset + 1) n

/-- The record loop of `decodeDetach` (protocol.ts:503-517). -/
def decodeDetachRecords (buffer : List Nat) (endPos : Nat) :
    Nat → Nat × List (Nat × List Nat)
  | offset =>
    if h : offset < endPos then
      let entity := readNat buffer offset 4
      let idsLength := readNat buffer (offset + 4) 1
      let ids := decodeIdsLoop buffer (offset + 5) idsLength
      let restR := decodeDetachRecords buffer endPos (offset + 5 + idsLength)
      (restR.1, (entity, ids) :: restR.2)
    else (offset, [])
  termination_by offset => endPos - offset
  decreasing_by omega

/-- `decodeDetach` (protocol.ts:493-520). -/
def decodeDetach (buffer : List Nat) (offset : Nat) : Nat × List (Nat × List Nat) :=
  let detachLength := readNat buffer offset 2
  decodeDetachRecords buffer (offset + detachLength) (offset + 2)

/-- The record loop of `decodeDestroy` (protocol.ts:532-536). -/
def decodeDestroyRecords (buffer : List Nat) (endPos : Nat) : Nat → Nat × List Nat
  | offset =>
    if h : offset < endPos then
      let entity := readNat buffer offset 4
      let restR := decodeDestroyRecords buffer endPos (offset + 4)
      (restR.1, entity :: restR.2)
    else (offset, [])
  termination_by offset => endPos - offset
  decreasing_by omega

/-- `decodeDestroy` (protocol.ts:522-539). -/
def decodeDestroy (buffer : List Nat) (offset : Nat) : Nat × List Nat :=
  let destroyLength := readNat buffer offset 2
  decodeDestroyRecords buffer (offset + destroyLength) (offset + 2)

/-- `decodeModel` (protocol.ts:420-448): read the section header, return at
once on an empty section, otherwise decode the model entries out of the
section's byte slice and report the reconstructed model. -/
def decodeModel (buffer : List Nat) (offset : Nat) :
    Except String (Nat × Option Model) :=
  let length := readNat buffer offset 2
  let offset := offset + 2
  if length = 0 then .ok (offset, none)
  else
    let encoded := (buffer.drop offset).take length
    match decodeModelEntriesF length encoded with
    | .ok m => .ok (offset + length, some m)
    | .error e => .error e

/-- `decodeMessage` (protocol.ts:557-627), as the list of handler
invocations in call order together with the raised assertion, if any.  The
model decoded in-stream replaces the caller-supplied one; with neither, the
source's assert fires after the model section and before any entity
section is read. -/
def decodeMessage (buffer : List Nat) (modelArg : Option Model) :
    List DecodeEvent × Option String :=
  let tickLength := readNat buffer 0 2
  let offset := 2
  let evTick : List DecodeEvent :=
    if tickLength > 0 then [.onTick (readNat buffer offset 4)] else []
  let offset := if tickLength > 0 then offset + tickLength else offset
  match decodeModel buffer offset with
  | .error e => (evTick, some e)
  | .ok (offset, streamModel) =>
    let evModel : List DecodeEvent :=
      match streamModel with
      | some m => [.onModel m]
      | none => []
    match streamModel.orElse (fun _ => modelArg) with
    | none =>
      (evTick ++ evModel,
        some "Failed to decode network message: model not provided to decodeMessage() nor, was it encoded in message")
    | some model =>
      let spawnR := decodeEntityComponentsPart buffer model offset
      let attachR := decodeEntityComponentsPart buffer model spawnR.1
      let updateR := decodeEntityComponentsPart buffer model attachR.1
      let patchLength := readNat buffer updateR.1 2
      let evPatch : List DecodeEvent := [.onPatch updateR.1]
      let offset := updateR.1 + patchLength + 2
      let detachR := decodeDetach buffer offset
      let destroyR := decodeDestroy buffer detachR.1
      (evTick ++ evModel ++
        spawnR.2.map (fun r => .onCreate r.1 r.2) ++
        attachR.2.map (fun r => .onAttach r.1 r.2) ++
        updateR.2.map (fun r => .onUpdate r.1 r.2) ++
        evPatch ++
        detachR.2.map (fun r => .onDetach r.1 r.2) ++
        destroyR.2.map (fun r => .onDestroy r), none)

/-- Whether an `Except` result is a success. -/
def exceptOk {e a : Type} : Except e a → Bool
  | .ok _ => true
  | .error _ => false

/-- Width in bytes one pending instruction will occupy on the wire. -/
def entryWidth : PartEntry → Nat
  | .val _ w => w
  | .buf b => b.length

/-- A part's running byte length matches its payload (every part reachable
through the producer operations satisfies this). -/
def partWFb (p : Part) : Bool := p.byteLength == (partPayload p).length

/-- Wire cost of a pending change map: component header plus field costs,
when every stored ChangeSet validates. -/
def changeMapCost (flat : ModelFlat) : List (Nat × ChangeSet) → Option Nat
  | [] => some 0
  | (cid, cs) :: rest =>
    match calcChangeByteLength cs (alistGetD flat cid []) with
    | .ok n => (changeMapCost flat rest).map (fun t => 2 + n + t)
    | .error _ => none

/-- Wire cost of the pending patch state: entity header plus component
costs. -/
def patchCost (flat : ModelFlat) : List (Nat × List (Nat × ChangeSet)) → Option Nat
  | [] => some 0
  | (_, cm) :: rest =>
    match changeMapCost flat cm with
    | some n => (patchCost flat rest).map (fun t => 4 + n + t)
    | none => none

/-- The patch part's byte length accounts exactly for its pending
ChangeSets. -/
def patchInv (m : Message) : Bool :=
  patchCost m.modelFlat m.changeMapByEntity == some m.partPatch.byteLength

/-- Every part's byte length matches the bytes the encoder will write for
it. -/
def messageWF (m : Message) : Bool :=
  partWFb m.partTick && partWFb m.partModel && partWFb m.partSpawn &&
  partWFb m.partAttach && partWFb m.partUpdate && partWFb m.partDetach &&
  partWFb m.partDestroy && patchInv m

/-- A stored ChangeSet as the `patch` operation leaves it: a positive field
count and every non-`NO_OP` change validated against the flattened model. -/
def changeSetOk (flat : ModelFlat) (cid : Nat) (cs : ChangeSet) : Bool :=
  !(cs.fieldsCount == 0) && exceptOk (calcChangeByteLength cs (alistGetD flat cid []))

/-- Every pending ChangeSet of the message validates (claim C10's
invariant). -/
def patchSetsOk (m : Message) : Bool :=
  m.changeMapByEntity.all (fun e => e.2.all (fun c => changeSetOk m.modelFlat c.1 c.2))

/-- Leaf values fit their codecs bit for bit. -/
def fitsLeaves : List Nat → List Nat → Bool
  | [], [] => true
  | w :: ws, v :: vs => decide (v < 256 ^ w) && fitsLeaves ws vs
  | _, _ => false

/-- A component conforms to the model: its type id is registered and fits
the wire's id byte, its values fit the schema's codecs, and its encoded form
fits the 2-byte length field. -/
def componentOK (model : Model) (c : Component) : Bool :=
  decide (c.tid < 256) &&
  match alistGet model c.tid with
  | some n =>
    fitsLeaves (leaves n) c.values &&
      decide ((encodeComponentBytes n c.values).length < 65536)
  | none => false

/-- An entity record conforms to the wire format: entity id in `uint32`
range, component count in `uint8` range, components conforming. -/
def recordOK (model : Model) (entity : Nat) (components : List Component) : Bool :=
  decide (entity < 4294967296) && decide (components.length < 256) &&
  components.all (componentOK model)

mutual
/-- Schema wire-format bounds: widths and child counts fit their bytes. -/
def nodeWF : ModelNode → Bool
  | .prim w => decide (w < 256)
  | .obj cs => decide (nodesLen cs < 256) && nodesWF cs
def nodesWF : ModelNodeList → Bool
  | .nil => true
  | .cons c cs => nodeWF c && nodesWF cs
end

/-- Model wire-format bounds: ids fit the id byte and schemas are within
bounds. -/
def modelWF : Model → Bool
  | [] => true
  | (tid, n) :: rest => decide (tid < 256) && nodeWF n && modelWF rest

mutual
/-- Fuel measure for the schema decoder: one unit per node. -/
def nodeSize : ModelNode → Nat
  | .prim _ => 1
  | .obj cs => 1 + nodesSize cs
def nodesSize : ModelNodeList → Nat
  | .nil => 0
  | .cons c cs => 1 + nodeSize c + nodesSize cs
end

/-- One mutation of the spawn, attach or update sections (the sections the
round-trip claim quantifies over). -/
inductive SectionOp where
  | spawnOp (entity : Nat) (components : List Component)
  | attachOp (entity : Nat) (components : List Component)
  | updateOp (entity : Nat) (components : List Component)

/-- Apply one mutation through the public operation it names. -/
def applyOp (m : Message) : SectionOp → Except String Message
  | .spawnOp e cs => spawn m e cs
  | .attachOp e cs => attach m e cs
  | .updateOp e cs => update m e cs

/-- Apply a call sequence left to right. -/
def applyOps : Message → List SectionOp → Except String Message
  | m, [] => .ok m
  | m, op :: rest =>
    match applyOp m op with
    | .ok m' => applyOps m' rest
    | .error e => .error e

/-- The spawn-section records of a call sequence, in insertion order. -/
def spawnsOf : List SectionOp → List (Nat × List Component)
  | [] => []
  | .spawnOp e cs :: rest => (e, cs) :: spawnsOf rest
  | _ :: rest => spawnsOf rest

/-- The attach-section records of a call sequence, in insertion order. -/
def attachesOf : List SectionOp → List (Nat × List Component)
  | [] => []
  | .attachOp e cs :: rest => (e, cs) :: attachesOf rest
  | _ :: rest => attachesOf rest

/-- The update-section records of a call sequence, in insertion order. -/
def updatesOf : List SectionOp → List (Nat × List Component)
  | [] => []
  | .updateOp e cs :: rest => (e, cs) :: updatesOf rest
  | _ :: rest => updatesOf rest

/-- A mutation conforms when its record does. -/
def opOK (model : Model) : SectionOp → Bool
  | .spawnOp e cs => recordOK model e cs
  | .attachOp e cs => recordOK model e cs
  | .updateOp e cs => recordOK model e cs

/-- The part entries one component insertion appends
(protocol.ts:192-202). -/
def componentEntriesOf (model : Model) (c : Component) : List PartEntry :=
  match alistGet model c.tid with
  | some n =>
    let enc := encodeComponentBytes n c.values
    [.val c.tid 1, .val enc.length 2, .buf enc]
  | none => []

/-- The part entries one entity record appends. -/
def recordEntries (model : Model) (e : Nat) (cs : List Component) : List PartEntry :=
  .val e 4 :: .val cs.length 1 :: (cs.map (componentEntriesOf model)).flatten

/-- The wire bytes of one component inside an entity record. -/
def componentRecordBytes (model : Model) (c : Component) : List Nat :=
  match alistGet model c.tid with
  | some n =>
    let enc := encodeComponentBytes n c.values
    writeBytes 1 c.tid ++ writeBytes 2 enc.length ++ enc
  | none => []

/-- The wire bytes of one entity record. -/
def recordBytes (model : Model) (e : Nat) (cs : List Component) : List Nat :=
  writeBytes 4 e ++ writeBytes 1 cs.length ++ (cs.map (componentRecordBytes model)).flatten

/-- The payload bytes of a whole spawn/attach/update section. -/
def sectionBytes (model : Model) (rs : List (Nat × List Component)) : List Nat :=
  (rs.map (fun r => recordBytes model r.1 r.2)).flatten

theorem entryBytes_length (e : PartEntry) : (entryBytes e).length = entryWidth e := by
  cases e <;> simp [entryBytes, entryWidth]

theorem partPayload_length_insert (p : Part) (v w : Nat) :
    (partPayload (insert p v w)).length = (partPayload p).length + w := by
  simp [partPayload, insert, entryBytes]

theorem partPayload_length_insertBuffer (p : Part) (b : List Nat) :
    (partPayload (insertBuffer p b)).length = (partPayload p).length + b.length := by
  simp [partPayload, insertBuffer, entryBytes]

theorem alistGet_alistSet_self {α : Type} (l : List (Nat × α)) (k : Nat) (v : α) :
    alistGet (alistSet l k v) k = some v := by
  induction l with
  | nil => simp [alistGet, alistSet]
  | cons h t ih =>
    by_cases hk : h.1 = k
    · simp [alistSet, hk, alistGet]
    · simp [alistSet, hk, alistGet, ih]

theorem alistSet_alistSet_self {α : Type} (l : List (Nat × α)) (k : Nat) (v v' : α) :
    alistSet (alistSet l k v) k v' = alistSet l k v' := by
  induction l with
  | nil => simp [alistSet]
  | cons h t ih =>
    by_cases hk : h.1 = k
    · simp [alistSet, hk]
    · simp [alistSet, hk, ih]

/-- Demonstration model shared by the concrete counterexamples: one
component type with a single one-byte primitive field. -/
def demoModel : Model := [(0, .prim 1)]

/-- Demonstration ChangeSet: set field 0 to 42. -/
def demoChangeSet : ChangeSet :=
  { fields := [.change { field := 0, traverse := none, value := 42 }], fieldsCount := 1 }

/-- A message holding one pending patch. -/
def c4From : Message := (patch (createMessage demoModel) 1 0 demoChangeSet).1

/-- The merge destination. -/
def c4To : Message := createMessage demoModel

/-- The result of draining `c4From` into `c4To`. -/
def c4Merged : Message := copy c4From c4To

/-- C4: `copy` fails to merge the patch section's pending state.  The source
message holds a pending ChangeSet for entity 1 and accounts 9 bytes for it;
after `copy` the destination's change map is still empty while its patch
byte length has absorbed the 9 bytes, so the patch section of the encoded
buffer announces 9 payload bytes and writes none — the destination is not
well formed and the pending patch is lost. -/
theorem c4_copy_drops_pending_patch :
    alistGet c4From.changeMapByEntity 1 = some [(0, demoChangeSet)] ∧
    (patch (createMessage demoModel) 1 0 demoChangeSet).2 = none ∧
    c4From.partPatch.byteLength = 9 ∧
    messageWF c4From = true ∧
    c4Merged.changeMapByEntity = [] ∧
    c4Merged.partPatch.byteLength = 9 ∧
    encodePart c4Merged 5 = .ok [0, 9] ∧
    messageWF c4Merged = false :=
  ⟨rfl, rfl, rfl, rfl, rfl, rfl, rfl, rfl⟩

/-- C5 (counterexample): after `reset`, encoding with `includeModel = true`
does not reproduce a fresh message's buffer — `reset` also clears the model
part (its `case 5` falls through into the default clearing branch), so the
reset message emits an empty model section where the fresh one carries the
encoded schema. -/
theorem c5_reset_model_section_counterexample :
    encodeBytes (reset (createMessage demoModel)) true = .ok (List.replicate 16 0) ∧
    encodeBytes (createMessage demoModel) true =
      .ok [0, 0, 0, 3, 0, 0, 1, 0, 0, 0, 0, 0, 0, 0, 0, 0, 0, 0, 0] ∧
    (List.replicate 16 0 : List Nat) ≠
      [0, 0, 0, 3, 0, 0, 1, 0, 0, 0, 0, 0, 0, 0, 0, 0, 0, 0, 0] :=
  ⟨rfl, rfl, by decide⟩

/-- C5 (amended): after `reset`, encoding with `includeModel = false` is
byte-for-byte the encoding of a freshly created message of the same model
with `includeModel = false`; every pending section of either message is
empty and the model payload is omitted on both sides. -/
theorem c5_reset_fresh_encode_agree (m : Message) :
    encodeBytes (reset m) false = encodeBytes (createMessage m.model) false := rfl

/-- A section with no pending entries. -/
def sectionEmpty (m : Message) (i : Nat) : Bool :=
  (partAt m i).data.isEmpty && (partAt m i).byteLength == 0 &&
  (i != 5 || m.changeMapByEntity.isEmpty)

/-- C6: an empty section is encoded as exactly its 2-byte zero length
header, and each section decoder, upon reading a zero header, advances
exactly two bytes and produces no records (hence no per-record handler
invocation). -/
theorem c6_empty_section_framing (m : Message) (i : Nat) (buffer : List Nat)
    (model : Model) (offset : Nat) (hi : i < 8) (he : sectionEmpty m i = true)
    (hz : readNat buffer offset 2 = 0) :
    encodePart m i = .ok [0, 0] ∧
    decodeEntityComponentsPart buffer model offset = (offset + 2, []) ∧
    decodeDetach buffer offset = (offset + 2, []) ∧
    decodeDestroy buffer offset = (offset + 2, []) := by
  have hrec : ∀ endP o, ¬ o < endP →
      decodeEntityRecords buffer model endP o = (o, []) := by
    intro endP o ho
    rw [decodeEntityRecords]
    simp [ho]
  have hdet : ∀ endP o, ¬ o < endP →
      decodeDetachRecords buffer endP o = (o, []) := by
    intro endP o ho
    rw [decodeDetachRecords]
    simp [ho]
  have hdes : ∀ endP o, ¬ o < endP →
      decodeDestroyRecords buffer endP o = (o, []) := by
    intro endP o ho
    rw [decodeDestroyRecords]
    simp [ho]
  refine ⟨?_, ?_, ?_, ?_⟩
  · simp only [sectionEmpty, Bool.and_eq_true] at he
    obtain ⟨⟨hd, hb⟩, hp⟩ := he
    by_cases h5 : i = 5
    · subst h5
      have hmap : m.changeMapByEntity = [] := by
        simpa [List.isEmpty_iff] using hp
      have hbl : m.partPatch.byteLength = 0 := by
        simpa [partAt] using hb
      simp [encodePart, hmap, hbl, encodePatchBytes, writeBytes, Except.map]
    · have hd' : (partAt m i).data = [] := by
        simpa [List.isEmpty_iff] using hd
      have hb' : (partAt m i).byteLength = 0 := by simpa using hb
      simp [encodePart, h5, hd', hb', partPayload, writeBytes]
  · simp [decodeEntityComponentsPart, hz, hrec]
  · simp [decodeDetach, hz, hdet]
  · simp [decodeDestroy, hz, hdes]

theorem encodePartStep_message {flag : Bool} {i : Nat} {m : Message}
    {p : List Nat × Message}
    (h : (if i == 1 && !flag then Except.ok (writeBytes 2 0, m)
          else (encodePart m i).map (fun b => (b, m))) = .ok p) : p.2 = m := by
  split at h
  · simp only [Except.ok.injEq] at h
    rw [← h]
  · cases he : encodePart m i with
    | error e => rw [he] at h; simp [Except.map] at h
    | ok bb =>
      rw [he] at h
      simp only [Except.map, Except.ok.injEq] at h
      rw [← h]

theorem encodePartsS_message {flag : Bool} {l : List Nat} {m m' : Message}
    {b : List Nat} (h : encodePartsS flag m l = .ok (b, m')) : m' = m := by
  induction l generalizing m b with
  | nil =>
    simp only [encodePartsS, Except.ok.injEq, Prod.mk.injEq] at h
    exact h.2.symm
  | cons i rest ih =>
    simp only [encodePartsS] at h
    cases hstep : (if i == 1 && !flag then Except.ok (writeBytes 2 0, m)
        else (encodePart m i).map (fun b => (b, m))) with
    | error e => rw [hstep] at h; exact absurd h (by simp)
    | ok p =>
      rcases p with ⟨b1, m1⟩
      rw [hstep] at h
      dsimp only at h
      cases hrest : encodePartsS flag m1 rest with
      | error e => rw [hrest] at h; exact absurd h (by simp)
      | ok q =>
        rcases q with ⟨tl, m2⟩
        rw [hrest] at h
        simp only [Except.ok.injEq, Prod.mk.injEq] at h
        obtain ⟨hb, hm2⟩ := h
        subst hm2
        rw [ih hrest]
        exact encodePartStep_message hstep

/-- C9: the encoder does not mutate the message.  The threaded message
returned by `encodeMessage` is the input message, and a second call on the
returned state yields the identical buffer. -/
theorem c9_encode_pure (m m' : Message) (flag : Bool) (bytes : List Nat)
    (h : encodeMessage m flag = .ok (bytes, m')) :
    m' = m ∧ encodeMessage m' flag = .ok (bytes, m') := by
  have hm : m' = m := by
    unfold encodeMessage at h
    cases hps : encodePartsS flag m partsIndexList with
    | error e => rw [hps] at h; exact absurd h (by simp)
    | ok p =>
      rcases p with ⟨w, mw⟩
      rw [hps] at h
      simp only [Except.ok.injEq, Prod.mk.injEq] at h
      rw [← h.2]
      exact encodePartsS_message hps
  refine ⟨hm, ?_⟩
  subst hm
  exact h

/-- C9 (witness): the concrete demonstration message encodes successfully,
the threaded state is unchanged, and re-encoding agrees. -/
theorem c9_encode_pure_witness :
    createMessage demoModel = createMessage demoModel ∧
    encodeMessage (createMessage demoModel) true =
      .ok ([0, 0, 0, 3, 0, 0, 1, 0, 0, 0, 0, 0, 0, 0, 0, 0, 0, 0, 0],
        createMessage demoModel) :=
  c9_encode_pure (createMessage demoModel) (createMessage demoModel) true
    [0, 0, 0, 3, 0, 0, 1, 0, 0, 0, 0, 0, 0, 0, 0, 0, 0, 0, 0] rfl

/-- One field slot holding a change whose field index resolves to a
compound (non-primitive) node. -/
def badField (nodes : List ModelNode) : FieldEntry → Bool
  | .change c =>
    match nodes[c.field]? with
    | some (.obj _) => true
    | _ => false
  | .noOp => false

/-- A ChangeSet containing a non-`NO_OP` change whose field index resolves
to a compound (non-primitive) node. -/
def hasBadChange (nodes : List ModelNode) (cs : ChangeSet) : Bool :=
  cs.fields.any (badField nodes)

theorem calcFields_error_of_bad {q : List ModelNode} {l : List FieldEntry}
    (h : l.any (badField q) = true) :
    ∃ err, calcFields q l = .error err := by
  induction l with
  | nil => simp at h
  | cons f rest ih =>
    cases f with
    | noOp =>
      simp only [List.any_cons, badField] at h
      exact (by simpa [calcFields] using ih (by simpa using h))
    | change c =>
      cases hn : q[c.field]? with
      | none =>
        exact ⟨"Failed to encode change: field node not found", by simp [calcFields, hn]⟩
      | some node =>
        cases node with
        | obj cs =>
          exact ⟨"Failed to encode change: only primitive field mutations are currently supported",
            by simp [calcFields, hn]⟩
        | prim w =>
          have h' : rest.any (badField q) = true := by
            simpa [List.any_cons, badField, hn] using h
          obtain ⟨err, herr⟩ := ih h'
          exact ⟨err, by simp [calcFields, hn, herr, Except.map]⟩

/-- C8: submitting a ChangeSet with a non-`NO_OP` change that targets a
compound node raises the `calcChangeByteLength` assertion inside `patch` —
before the patch part's byte length (and hence anything the encoder would
later write for it) is touched. -/
theorem c8_patch_rejects_compound_field (m : Message) (entity cid : Nat)
    (cs : ChangeSet) (hc : cs.fieldsCount ≠ 0)
    (hbad : hasBadChange (alistGetD m.modelFlat cid []) cs = true) :
    (patch m entity cid cs).2.isSome = true ∧
    (patch m entity cid cs).1.partPatch.byteLength = m.partPatch.byteLength := by
  obtain ⟨err, herr⟩ := calcFields_error_of_bad (q := alistGetD m.modelFlat cid [])
    (l := cs.fields) (by simpa [hasBadChange] using hbad)
  have hcalc : calcChangeByteLength cs (alistGetD m.modelFlat cid []) = .error err := herr
  unfold patch
  rw [if_neg hc]
  cases hfound : alistGet m.changeMapByEntity entity with
  | none =>
    simp only [hfound, Option.getD]
    simp [alistGet, hcalc]
  | some cm =>
    simp only [hfound, Option.getD]
    cases hex : alistGet cm cid with
    | none => simp [hex, hcalc]
    | some ex =>
      cases hold : calcChangeByteLength ex (alistGetD m.modelFlat cid []) with
      | error e => simp [hex, hold]
      | ok oldLen => simp [hex, hold, hcalc]

/-- C8 (witness): a compound-field patch against a model with one
object-typed component is rejected with the patch part untouched. -/
theorem c8_patch_rejects_compound_field_witness :
    ({ fields := [.change { field := 0, traverse := none, value := 1 }],
       fieldsCount := 1 } : ChangeSet).fieldsCount ≠ 0 ∧
    hasBadChange
      (alistGetD (createMessage [(0, .obj (.cons (.prim 1) .nil))]).modelFlat 0 [])
      { fields := [.change { field := 0, traverse := none, value := 1 }],
        fieldsCount := 1 } = true ∧
    ((patch (createMessage [(0, .obj (.cons (.prim 1) .nil))]) 9 0
        { fields := [.change { field := 0, traverse := none, value := 1 }],
          fieldsCount := 1 }).2.isSome = true ∧
      (patch (createMessage [(0, .obj (.cons (.prim 1) .nil))]) 9 0
        { fields := [.change { field := 0, traverse := none, value := 1 }],
          fieldsCount := 1 }).1.partPatch.byteLength =
        (createMessage [(0, .obj (.cons (.prim 1) .nil))]).partPatch.byteLength) :=
  ⟨by decide, by decide,
    c8_patch_rejects_compound_field (createMessage [(0, .obj (.cons (.prim 1) .nil))])
      9 0 _ (by decide) (by decide)⟩

theorem flatten_map_writeBytes_length (w : Nat) (ks : List Nat) :
    ((ks.map (writeBytes w)).flatten).length = w * ks.length := by
  induction ks with
  | nil => simp
  | cons k ks ih => simp [ih]; ring

theorem calcFields_ok_encodeFields {nodes : List ModelNode} {l : List FieldEntry}
    {n : Nat} (h : calcFields nodes l = .ok n) :
    ∃ bs, encodeFieldsBytes nodes l = .ok bs ∧ bs.length = n := by
  induction l generalizing n with
  | nil =>
    simp only [calcFields, Except.ok.injEq] at h
    exact ⟨[], rfl, by simp [← h]⟩
  | cons f rest ih =>
    cases f with
    | noOp =>
      simp only [calcFields] at h
      obtain ⟨bs, hbs, hlen⟩ := ih h
      exact ⟨bs, by simpa [encodeFieldsBytes] using hbs, hlen⟩
    | change c =>
      cases hn : nodes[c.field]? with
      | none => simp [calcFields, hn] at h
      | some node =>
        cases node with
        | obj cs => simp [calcFields, hn] at h
        | prim w =>
          simp only [calcFields, hn] at h
          cases hrest : calcFields nodes rest with
          | error e => rw [hrest] at h; simp [Except.map] at h
          | ok k =>
            rw [hrest] at h
            simp only [Except.map, Except.ok.injEq] at h
            obtain ⟨bs, hbs, hlen⟩ := ih hrest
            refine ⟨writeBytes 1 c.field ++ writeBytes 1 (traverseLen c) ++
              ((c.traverse.getD []).map (writeBytes 2)).flatten ++
              writeBytes w c.value ++ bs, ?_, ?_⟩
            · simp [encodeFieldsBytes, hn, hbs, Except.map]
            · have hk2 : ((c.traverse.getD []).map (writeBytes 2)).flatten.length =
                  2 * (c.traverse.getD []).length := flatten_map_writeBytes_length 2 _
              simp only [List.length_append, writeBytes_length, hk2, hlen, traverseLen] at h ⊢
              omega

theorem changeMapCost_encode {flat : ModelFlat} {cm : List (Nat × ChangeSet)}
    {k : Nat} (h : changeMapCost flat cm = some k) :
    ∃ bs, encodeChangeMapBytes flat cm = .ok bs ∧ bs.length = k := by
  induction cm generalizing k with
  | nil =>
    simp only [changeMapCost, Option.some.injEq] at h
    exact ⟨[], rfl, by simp [← h]⟩
  | cons e rest ih =>
    rcases e with ⟨cid, cs⟩
    simp only [changeMapCost] at h
    cases hcalc : calcChangeByteLength cs (alistGetD flat cid []) with
    | error e => rw [hcalc] at h; simp at h
    | ok n =>
      rw [hcalc] at h
      cases hrest : changeMapCost flat rest with
      | none => rw [hrest] at h; simp at h
      | some t =>
        rw [hrest] at h
        simp only [Option.map, Option.some.injEq] at h
        obtain ⟨tl, htl, htlen⟩ := ih hrest
        obtain ⟨fb, hfb, hflen⟩ := calcFields_ok_encodeFields (n := n) hcalc
        refine ⟨writeBytes 1 cid ++ writeBytes 1 cs.fieldsCount ++ fb ++ tl, ?_, ?_⟩
        · simp [encodeChangeMapBytes, hfb, htl]
        · simp only [List.length_append, writeBytes_length, hflen, htlen]
          omega

theorem patchCost_encode {flat : ModelFlat} {ecm : List (Nat × List (Nat × ChangeSet))}
    {n : Nat} (h : patchCost flat ecm = some n) :
    ∃ pl, encodePatchBytes flat ecm = .ok pl ∧ pl.length = n := by
  induction ecm generalizing n with
  | nil =>
    simp only [patchCost, Option.some.injEq] at h
    exact ⟨[], rfl, by simp [← h]⟩
  | cons e rest ih =>
    rcases e with ⟨ent, cm⟩
    simp only [patchCost] at h
    cases hcm : changeMapCost flat cm with
    | none => rw [hcm] at h; simp at h
    | some k =>
      rw [hcm] at h
      cases hrest : patchCost flat rest with
      | none => rw [hrest] at h; simp at h
      | some t =>
        rw [hrest] at h
        simp only [Option.map, Option.some.injEq] at h
        obtain ⟨tl, htl, htlen⟩ := ih hrest
        obtain ⟨cmb, hcmb, hcmlen⟩ := changeMapCost_encode hcm
        refine ⟨writeBytes 4 ent ++ cmb ++ tl, ?_, ?_⟩
        · simp [encodePatchBytes, hcmb, htl]
        · simp only [List.length_append, writeBytes_length, hcmlen, htlen]
          omega

theorem changeMapCost_of_all {flat : ModelFlat} {cm : List (Nat × ChangeSet)}
    (h : cm.all (fun c => changeSetOk flat c.1 c.2) = true) :
    ∃ k, changeMapCost flat cm = some k := by
  induction cm with
  | nil => exact ⟨0, rfl⟩
  | cons e rest ih =>
    rcases e with ⟨cid, cs⟩
    simp only [List.all_cons, Bool.and_eq_true] at h
    obtain ⟨he, hrest⟩ := h
    simp only [changeSetOk, Bool.and_eq_true] at he
    obtain ⟨k, hk⟩ := ih hrest
    cases hcalc : calcChangeByteLength cs (alistGetD flat cid []) with
    | error err =>
      rw [hcalc] at he
      exact absurd he.2 (by simp [exceptOk])
    | ok n =>
      refine ⟨2 + n + k, ?_⟩
      simp only [changeMapCost]
      rw [hcalc, hk]
      rfl

theorem patchCost_of_all {flat : ModelFlat} {ecm : List (Nat × List (Nat × ChangeSet))}
    (h : ecm.all (fun e => e.2.all (fun c => changeSetOk flat c.1 c.2)) = true) :
    ∃ n, patchCost flat ecm = some n := by
  induction ecm with
  | nil => exact ⟨0, rfl⟩
  | cons e rest ih =>
    rcases e with ⟨ent, cm⟩
    simp only [List.all_cons, Bool.and_eq_true] at h
    obtain ⟨k, hk⟩ := changeMapCost_of_all h.1
    obtain ⟨t, ht⟩ := ih h.2
    refine ⟨4 + k + t, ?_⟩
    simp only [patchCost]
    rw [hk, ht]
    rfl

theorem all_of_alistGet {α : Type} {p : Nat × α → Bool} {l : List (Nat × α)}
    {k : Nat} {v : α} (hg : alistGet l k = some v) (hl : l.all p = true) :
    p (k, v) = true := by
  induction l with
  | nil => simp [alistGet] at hg
  | cons e rest ih =>
    simp only [List.all_cons, Bool.and_eq_true] at hl
    simp only [alistGet] at hg
    by_cases he : e.1 = k
    · rw [if_pos he] at hg
      cases hg
      rcases e with ⟨k', v'⟩
      cases he
      exact hl.1
    · rw [if_neg he] at hg
      exact ih hg hl.2

theorem all_alistSet {α : Type} {p : Nat × α → Bool} {l : List (Nat × α)}
    {k : Nat} {v : α} (hl : l.all p = true) (hv : p (k, v) = true) :
    (alistSet l k v).all p = true := by
  induction l with
  | nil => simpa [alistSet]
  | cons e rest ih =>
    simp only [List.all_cons, Bool.and_eq_true] at hl
    by_cases he : e.1 = k
    · simp [alistSet, he, hv, hl.2]
    · simp [alistSet, he, hl.1, ih hl.2]

/-- C10: state reached by successful `patch` calls keeps every stored
ChangeSet validated with a positive field count, and on such state the
patch branch of the encoder cannot fire its assertions — `encodePatchBytes`
succeeds.  A failing `patch` call is fatal (spec section 7), so no encoding
follows it. -/
theorem c10_patch_validation (model : Model) (m m' : Message) (entity cid : Nat)
    (cs : ChangeSet) (hok : patchSetsOk m = true)
    (hp : patch m entity cid cs = (m', none)) :
    patchSetsOk m' = true ∧
    exceptOk (encodePatchBytes m'.modelFlat m'.changeMapByEntity) = true ∧
    patchSetsOk (createMessage model) = true := by
  have hmain : patchSetsOk m' = true := by
    by_cases h0 : cs.fieldsCount = 0
    · unfold patch at hp
      rw [if_pos h0] at hp
      have hm : m = m' := congrArg Prod.fst hp
      subst hm
      exact hok
    · have hcsOk : ∀ {n : Nat},
          calcChangeByteLength cs (alistGetD m.modelFlat cid []) = .ok n →
          changeSetOk m.modelFlat cid cs = true := by
        intro n hn
        simp [changeSetOk, exceptOk, hn, h0]
      have hstep : ∀ (cm : List (Nat × ChangeSet)),
          cm.all (fun c => changeSetOk m.modelFlat c.1 c.2) = true →
          ∀ {n : Nat}, calcChangeByteLength cs (alistGetD m.modelFlat cid []) = .ok n →
          (alistSet m.changeMapByEntity entity (alistSet cm cid cs)).all
            (fun e => e.2.all (fun c => changeSetOk m.modelFlat c.1 c.2)) = true := by
        intro cm hcm n hn
        exact all_alistSet hok (all_alistSet hcm (hcsOk hn))
      unfold patch at hp
      rw [if_neg h0] at hp
      cases hfound : alistGet m.changeMapByEntity entity with
      | none =>
        simp only [hfound, Option.getD, alistGet] at hp
        cases hcalc : calcChangeByteLength cs (alistGetD m.modelFlat cid []) with
        | error e =>
          rw [hcalc] at hp
          have := congrArg Prod.snd hp
          simp at this
        | ok newLen =>
          rw [hcalc] at hp
          have hm' := congrArg Prod.fst hp
          subst hm'
          simp only [patchSetsOk]
          rw [alistSet_alistSet_self]
          exact hstep [] rfl hcalc
      | some cm =>
        simp only [hfound, Option.getD] at hp
        cases hex : alistGet cm cid with
        | none =>
          rw [hex] at hp
          dsimp only at hp
          cases hcalc : calcChangeByteLength cs (alistGetD m.modelFlat cid []) with
          | error e =>
            rw [hcalc] at hp
            have := congrArg Prod.snd hp
            simp at this
          | ok newLen =>
            rw [hcalc] at hp
            have hm' := congrArg Prod.fst hp
            subst hm'
            simp only [patchSetsOk]
            exact hstep cm (all_of_alistGet hfound hok) hcalc
        | some ex =>
          rw [hex] at hp
          dsimp only at hp
          cases hold : calcChangeByteLength ex (alistGetD m.modelFlat cid []) with
          | error e =>
            rw [hold] at hp
            have := congrArg Prod.snd hp
            simp at this
          | ok oldLen =>
            rw [hold] at hp
            cases hcalc : calcChangeByteLength cs (alistGetD m.modelFlat cid []) with
            | error e =>
              rw [hcalc] at hp
              have := congrArg Prod.snd hp
              simp at this
            | ok newLen =>
              rw [hcalc] at hp
              have hm' := congrArg Prod.fst hp
              subst hm'
              simp only [patchSetsOk]
              exact hstep cm (all_of_alistGet hfound hok) hcalc
  refine ⟨hmain, ?_, rfl⟩
  obtain ⟨n, hn⟩ := patchCost_of_all hmain
  obtain ⟨pl, hpl, -⟩ := patchCost_encode hn
  simp [exceptOk, hpl]

/-- C10 (witness): one successful concrete patch, with the invariant and
encoder success evaluated. -/
theorem c10_patch_validation_witness :
    patchSetsOk (createMessage demoModel) = true ∧
    (patchSetsOk c4From = true ∧
     exceptOk (encodePatchBytes c4From.modelFlat c4From.changeMapByEntity) = true ∧
     patchSetsOk (createMessage demoModel) = true) :=
  ⟨by decide, c10_patch_validation demoModel (createMessage demoModel) c4From 1 0
      demoChangeSet (by decide) rfl⟩

theorem partWFb_eq {p : Part} (h : partWFb p = true) :
    p.byteLength = (partPayload p).length := by
  simpa [partWFb] using h

/-- Evaluation of the section write loop over the fixed index list, given a
successful patch payload. -/
theorem encodePartsS_full (m : Message) (flag : Bool) {pl : List Nat}
    (hpl : encodePatchBytes m.modelFlat m.changeMapByEntity = .ok pl) :
    encodePartsS flag m partsIndexList = .ok
      (writeBytes 2 m.partTick.byteLength ++ partPayload m.partTick ++
       (if flag then writeBytes 2 m.partModel.byteLength ++ partPayload m.partModel
        else writeBytes 2 0) ++
       (writeBytes 2 m.partSpawn.byteLength ++ partPayload m.partSpawn) ++
       (writeBytes 2 m.partAttach.byteLength ++ partPayload m.partAttach) ++
       (writeBytes 2 m.partUpdate.byteLength ++ partPayload m.partUpdate) ++
       (writeBytes 2 m.partPatch.byteLength ++ pl) ++
       (writeBytes 2 m.partDetach.byteLength ++ partPayload m.partDetach) ++
       (writeBytes 2 m.partDestroy.byteLength ++ partPayload m.partDestroy), m) := by
  cases flag <;>
    simp [partsIndexList, encodePartsS, encodePart, partAt, hpl, Except.map]

/-- C2: the encoder allocates exactly eight 2-byte headers plus the parts'
byte lengths (the model part counted as zero when the model is excluded),
writes the sections in the fixed order, and on a well-formed message the
final write offset equals the allocated length — the buffer is returned
without padding or truncation. -/
theorem c2_encode_length (m : Message) (flag : Bool) (h : messageWF m = true) :
    ∃ bytes,
      encodePartsS flag m partsIndexList = .ok (bytes, m) ∧
      encodeMessage m flag = .ok (bytes, m) ∧
      bytes.length = encodeMessageLength m flag ∧
      encodeMessageLength m flag =
        16 + m.partTick.byteLength + (if flag then m.partModel.byteLength else 0) +
        m.partSpawn.byteLength + m.partAttach.byteLength + m.partUpdate.byteLength +
        m.partPatch.byteLength + m.partDetach.byteLength + m.partDestroy.byteLength := by
  simp only [messageWF, Bool.and_eq_true] at h
  obtain ⟨⟨⟨⟨⟨⟨⟨h0, h1⟩, h2⟩, h3⟩, h4⟩, h6⟩, h7⟩, hpi⟩ := h
  have hcost : patchCost m.modelFlat m.changeMapByEntity = some m.partPatch.byteLength := by
    simpa [patchInv] using hpi
  obtain ⟨pl, hpl, hpllen⟩ := patchCost_encode hcost
  have hfull := encodePartsS_full m flag hpl
  have hlen : encodeMessageLength m flag =
      16 + m.partTick.byteLength + (if flag then m.partModel.byteLength else 0) +
      m.partSpawn.byteLength + m.partAttach.byteLength + m.partUpdate.byteLength +
      m.partPatch.byteLength + m.partDetach.byteLength + m.partDestroy.byteLength := by
    cases flag <;>
      simp [encodeMessageLength, partsIndexList, partAt] <;> ring
  have hblen : (writeBytes 2 m.partTick.byteLength ++ partPayload m.partTick ++
       (if flag then writeBytes 2 m.partModel.byteLength ++ partPayload m.partModel
        else writeBytes 2 0) ++
       (writeBytes 2 m.partSpawn.byteLength ++ partPayload m.partSpawn) ++
       (writeBytes 2 m.partAttach.byteLength ++ partPayload m.partAttach) ++
       (writeBytes 2 m.partUpdate.byteLength ++ partPayload m.partUpdate) ++
       (writeBytes 2 m.partPatch.byteLength ++ pl) ++
       (writeBytes 2 m.partDetach.byteLength ++ partPayload m.partDetach) ++
       (writeBytes 2 m.partDestroy.byteLength ++ partPayload m.partDestroy)).length =
      encodeMessageLength m flag := by
    rw [hlen]
    cases flag <;>
      simp [List.length_append, writeBytes_length, ← partWFb_eq h0, ← partWFb_eq h1,
        ← partWFb_eq h2, ← partWFb_eq h3, ← partWFb_eq h4, ← partWFb_eq h6,
        ← partWFb_eq h7, hpllen] <;> omega
  refine ⟨_, hfull, ?_, hblen, hlen⟩
  unfold encodeMessage
  rw [hfull]
  dsimp only
  rw [hblen, Nat.sub_self]
  simp

/-- C2 (witness): the fresh demonstration message is well formed and its
encoding is evaluated. -/
theorem c2_encode_length_witness :
    messageWF (createMessage demoModel) = true ∧
    ∃ bytes,
      encodePartsS true (createMessage demoModel) partsIndexList =
        .ok (bytes, createMessage demoModel) ∧
      encodeMessage (createMessage demoModel) true = .ok (bytes, createMessage demoModel) ∧
      bytes.length = encodeMessageLength (createMessage demoModel) true ∧
      encodeMessageLength (createMessage demoModel) true =
        16 + (createMessage demoModel).partTick.byteLength +
        (if true then (createMessage demoModel).partModel.byteLength else 0) +
        (createMessage demoModel).partSpawn.byteLength +
        (createMessage demoModel).partAttach.byteLength +
        (createMessage demoModel).partUpdate.byteLength +
        (createMessage demoModel).partPatch.byteLength +
        (createMessage demoModel).partDetach.byteLength +
        (createMessage demoModel).partDestroy.byteLength :=
  ⟨by decide, c2_encode_length (createMessage demoModel) true (by decide)⟩

theorem changeMapCost_bound {flat : ModelFlat} {cm : List (Nat × ChangeSet)}
    {k cid : Nat} {cs : ChangeSet} (h : changeMapCost flat cm = some k)
    (hg : alistGet cm cid = some cs) :
    ∃ c0, calcChangeByteLength cs (alistGetD flat cid []) = .ok c0 ∧ 2 + c0 ≤ k := by
  induction cm generalizing k with
  | nil => simp [alistGet] at hg
  | cons e rest ih =>
    rcases e with ⟨cid', cs'⟩
    simp only [changeMapCost] at h
    cases hcalc : calcChangeByteLength cs' (alistGetD flat cid' []) with
    | error err => rw [hcalc] at h; simp at h
    | ok n =>
      rw [hcalc] at h
      cases hrest : changeMapCost flat rest with
      | none => rw [hrest] at h; simp at h
      | some t =>
        rw [hrest] at h
        simp only [Option.map, Option.some.injEq] at h
        simp only [alistGet] at hg
        by_cases he : cid' = cid
        · rw [if_pos he] at hg
          cases hg
          subst he
          exact ⟨n, hcalc, by omega⟩
        · rw [if_neg he] at hg
          obtain ⟨c0, hc0, hle⟩ := ih hrest hg
          exact ⟨c0, hc0, by omega⟩

theorem patchCost_bound {flat : ModelFlat} {ecm : List (Nat × List (Nat × ChangeSet))}
    {n e : Nat} {cm : List (Nat × ChangeSet)} (h : patchCost flat ecm = some n)
    (hg : alistGet ecm e = some cm) :
    ∃ k, changeMapCost flat cm = some k ∧ 4 + k ≤ n := by
  induction ecm generalizing n with
  | nil => simp [alistGet] at hg
  | cons x rest ih =>
    rcases x with ⟨e', cm'⟩
    simp only [patchCost] at h
    cases hcm : changeMapCost flat cm' with
    | none => rw [hcm] at h; simp at h
    | some k =>
      rw [hcm] at h
      cases hrest : patchCost flat rest with
      | none => rw [hrest] at h; simp at h
      | some t =>
        rw [hrest] at h
        simp only [Option.map, Option.some.injEq] at h
        simp only [alistGet] at hg
        by_cases he : e' = e
        · rw [if_pos he] at hg
          cases hg
          exact ⟨k, hcm, by omega⟩
        · rw [if_neg he] at hg
          obtain ⟨k0, hk0, hle⟩ := ih hrest hg
          exact ⟨k0, hk0, by omega⟩

/-- Evaluation of `patch` when the entity has no pending patches yet. -/
theorem patch_new_entity {m : Message} {entity cid n : Nat} {cs : ChangeSet}
    (hfound : alistGet m.changeMapByEntity entity = none)
    (hcalc : calcChangeByteLength cs (alistGetD m.modelFlat cid []) = .ok n)
    (hc : cs.fieldsCount ≠ 0) :
    patch m entity cid cs =
      ({ m with
          changeMapByEntity := alistSet m.changeMapByEntity entity [(cid, cs)]
          partPatch := { data := m.partPatch.data
                         byteLength := m.partPatch.byteLength + 4 + 1 + 1 + n } }, none) := by
  unfold patch
  rw [if_neg hc]
  simp only [hfound, Option.getD, alistGet]
  rw [hcalc]
  rw [alistSet_alistSet_self]
  rfl

/-- Evaluation of `patch` when the entity has pending patches but not for
this component. -/
theorem patch_new_component {m : Message} {entity cid n : Nat} {cs : ChangeSet}
    {cm : List (Nat × ChangeSet)}
    (hfound : alistGet m.changeMapByEntity entity = some cm)
    (hex : alistGet cm cid = none)
    (hcalc : calcChangeByteLength cs (alistGetD m.modelFlat cid []) = .ok n)
    (hc : cs.fieldsCount ≠ 0) :
    patch m entity cid cs =
      ({ m with
          changeMapByEntity := alistSet m.changeMapByEntity entity (alistSet cm cid cs)
          partPatch := { data := m.partPatch.data
                         byteLength := m.partPatch.byteLength + 0 + 1 + 1 + n } }, none) := by
  unfold patch
  rw [if_neg hc]
  simp only [hfound, Option.getD]
  rw [hex]
  dsimp only
  rw [hcalc]

/-- Evaluation of `patch` when a ChangeSet is already pending for the
(entity, component) pair: the stored set is replaced and its byte cost is
subtracted before the new cost is added. -/
theorem patch_replace {m : Message} {entity cid c0 n : Nat} {cs ex : ChangeSet}
    {cm : List (Nat × ChangeSet)}
    (hfound : alistGet m.changeMapByEntity entity = some cm)
    (hex : alistGet cm cid = some ex)
    (hold : calcChangeByteLength ex (alistGetD m.modelFlat cid []) = .ok c0)
    (hcalc : calcChangeByteLength cs (alistGetD m.modelFlat cid []) = .ok n)
    (hc : cs.fieldsCount ≠ 0) :
    patch m entity cid cs =
      ({ m with
          changeMapByEntity := alistSet m.changeMapByEntity entity (alistSet cm cid cs)
          partPatch := { data := m.partPatch.data
                         byteLength := m.partPatch.byteLength + 0 + n - c0 } }, none) := by
  unfold patch
  rw [if_neg hc]
  simp only [hfound, Option.getD]
  rw [hex]
  dsimp only
  rw [hold]
  dsimp only
  rw [hcalc]

/-- C3: a second `patch` for the same (entity, component) pair replaces the
pending ChangeSet — the two successive submissions leave exactly the state a
single submission of the second ChangeSet would have left, and for a fresh
entity the byte length is the entity header, the component header and the
second ChangeSet's field costs. -/
theorem c3_patch_merge (m : Message) (entity cid : Nat) (cs1 cs2 : ChangeSet)
    (n1 n2 : Nat) (hinv : patchInv m = true)
    (h1 : calcChangeByteLength cs1 (alistGetD m.modelFlat cid []) = .ok n1)
    (h2 : calcChangeByteLength cs2 (alistGetD m.modelFlat cid []) = .ok n2)
    (hc1 : cs1.fieldsCount ≠ 0) (hc2 : cs2.fieldsCount ≠ 0) :
    patch (patch m entity cid cs1).1 entity cid cs2 = patch m entity cid cs2 ∧
    (alistGet m.changeMapByEntity entity = none →
      (patch (patch m entity cid cs1).1 entity cid cs2).1.partPatch.byteLength =
        m.partPatch.byteLength + 4 + 2 + n2) := by
  cases hfound : alistGet m.changeMapByEntity entity with
  | none =>
    have hfst := patch_new_entity hfound h1 hc1
    have hM1 : (patch m entity cid cs1).1 =
        { m with
          changeMapByEntity := alistSet m.changeMapByEntity entity [(cid, cs1)]
          partPatch := { data := m.partPatch.data
                         byteLength := m.partPatch.byteLength + 4 + 1 + 1 + n1 } } := by
      rw [hfst]
    have hfound2 : alistGet (alistSet m.changeMapByEntity entity [(cid, cs1)]) entity =
        some [(cid, cs1)] := alistGet_alistSet_self _ _ _
    have hex2 : alistGet [(cid, cs1)] cid = some cs1 := by simp [alistGet]
    have hsnd := patch_replace (m := { m with
        changeMapByEntity := alistSet m.changeMapByEntity entity [(cid, cs1)]
        partPatch := { data := m.partPatch.data
                       byteLength := m.partPatch.byteLength + 4 + 1 + 1 + n1 } })
      hfound2 hex2 h1 h2 hc2
    have hrhs := patch_new_entity hfound h2 hc2
    rw [hM1, hsnd, hrhs]
    constructor
    · simp only [Prod.mk.injEq, Message.mk.injEq, Part.mk.injEq]
      and_intros <;>
        first
          | rfl
          | trivial
          | omega
          | simp [alistSet_alistSet_self, alistSet]
    · intro _
      dsimp only
      omega
  | some cm =>
    cases hex : alistGet cm cid with
    | none =>
      have hfst := patch_new_component hfound hex h1 hc1
      have hM1 : (patch m entity cid cs1).1 =
          { m with
            changeMapByEntity := alistSet m.changeMapByEntity entity (alistSet cm cid cs1)
            partPatch := { data := m.partPatch.data
                           byteLength := m.partPatch.byteLength + 0 + 1 + 1 + n1 } } := by
        rw [hfst]
      have hfound2 : alistGet (alistSet m.changeMapByEntity entity (alistSet cm cid cs1))
          entity = some (alistSet cm cid cs1) := alistGet_alistSet_self _ _ _
      have hex2 : alistGet (alistSet cm cid cs1) cid = some cs1 :=
        alistGet_alistSet_self _ _ _
      have hsnd := patch_replace (m := { m with
          changeMapByEntity := alistSet m.changeMapByEntity entity (alistSet cm cid cs1)
          partPatch := { data := m.partPatch.data
                         byteLength := m.partPatch.byteLength + 0 + 1 + 1 + n1 } })
        hfound2 hex2 h1 h2 hc2
      have hrhs := patch_new_component hfound hex h2 hc2
      refine ⟨?_, fun hn => by simp [hfound] at hn⟩
      rw [hM1, hsnd, hrhs]
      simp only [Prod.mk.injEq, Message.mk.injEq, Part.mk.injEq]
      and_intros <;>
        first
          | rfl
          | trivial
          | omega
          | simp [alistSet_alistSet_self, alistSet]
    | some ex0 =>
      have hcost : patchCost m.modelFlat m.changeMapByEntity =
          some m.partPatch.byteLength := by simpa [patchInv] using hinv
      obtain ⟨k, hk, hk4⟩ := patchCost_bound hcost hfound
      obtain ⟨c0, hc0, hck⟩ := changeMapCost_bound hk hex
      have hc0le : c0 ≤ m.partPatch.byteLength := by omega
      have hfst := patch_replace hfound hex hc0 h1 hc1
      have hM1 : (patch m entity cid cs1).1 =
          { m with
            changeMapByEntity := alistSet m.changeMapByEntity entity (alistSet cm cid cs1)
            partPatch := { data := m.partPatch.data
                           byteLength := m.partPatch.byteLength + 0 + n1 - c0 } } := by
        rw [hfst]
      have hfound2 : alistGet (alistSet m.changeMapByEntity entity (alistSet cm cid cs1))
          entity = some (alistSet cm cid cs1) := alistGet_alistSet_self _ _ _
      have hex2 : alistGet (alistSet cm cid cs1) cid = some cs1 :=
        alistGet_alistSet_self _ _ _
      have hsnd := patch_replace (m := { m with
          changeMapByEntity := alistSet m.changeMapByEntity entity (alistSet cm cid cs1)
          partPatch := { data := m.partPatch.data
                         byteLength := m.partPatch.byteLength + 0 + n1 - c0 } })
        hfound2 hex2 h1 h2 hc2
      have hrhs := patch_replace hfound hex hc0 h2 hc2
      refine ⟨?_, fun hn => by simp [hfound] at hn⟩
      rw [hM1, hsnd, hrhs]
      simp only [Prod.mk.injEq, Message.mk.injEq, Part.mk.injEq]
      and_intros <;>
        first
          | rfl
          | trivial
          | omega
          | simp [alistSet_alistSet_self, alistSet]

/-- A second demonstration ChangeSet for the same field. -/
def demoChangeSet2 : ChangeSet :=
  { fields := [.change { field := 0, traverse := none, value := 7 }], fieldsCount := 1 }

/-- C3 (witness): two concrete submissions for the same pair collapse to the
second one. -/
theorem c3_patch_merge_witness :
    patchInv (createMessage demoModel) = true ∧
    calcChangeByteLength demoChangeSet
      (alistGetD (createMessage demoModel).modelFlat 0 []) = .ok 3 ∧
    calcChangeByteLength demoChangeSet2
      (alistGetD (createMessage demoModel).modelFlat 0 []) = .ok 3 ∧
    demoChangeSet.fieldsCount ≠ 0 ∧ demoChangeSet2.fieldsCount ≠ 0 ∧
    (patch (patch (createMessage demoModel) 1 0 demoChangeSet).1 1 0 demoChangeSet2 =
        patch (createMessage demoModel) 1 0 demoChangeSet2 ∧
      (alistGet (createMessage demoModel).changeMapByEntity 1 = none →
        (patch (patch (createMessage demoModel) 1 0 demoChangeSet).1 1 0
            demoChangeSet2).1.partPatch.byteLength =
          (createMessage demoModel).partPatch.byteLength + 4 + 2 + 3)) :=
  ⟨by decide, rfl, rfl, by decide, by decide,
    c3_patch_merge (createMessage demoModel) 1 0 demoChangeSet demoChangeSet2 3 3
      (by decide) rfl rfl (by decide) (by decide)⟩

/-- C6 (witness): the spawn section of a fresh message is empty; its encoded
form and the three decoders' behaviour on a zero header are evaluated. -/
theorem c6_empty_section_framing_witness :
    (2 : Nat) < 8 ∧ sectionEmpty (createMessage demoModel) 2 = true ∧
    readNat [0, 0, 5] 0 2 = 0 ∧
    (encodePart (createMessage demoModel) 2 = .ok [0, 0] ∧
      decodeEntityComponentsPart [0, 0, 5] demoModel 0 = (0 + 2, []) ∧
      decodeDetach [0, 0, 5] 0 = (0 + 2, []) ∧
      decodeDestroy [0, 0, 5] 0 = (0 + 2, [])) :=
  ⟨by decide, by decide, by decide,
    c6_empty_section_framing (createMessage demoModel) 2 [0, 0, 5] demoModel 0
      (by decide) (by decide) (by decide)⟩

theorem take_of_drop {l : List Nat} {off : Nat} {a rest : List Nat}
    (h : l.drop off = a ++ rest) : (l.drop off).take a.length = a := by
  rw [h]
  exact List.take_left a rest

/-- Values read back leaf by leaf are the values written, provided each fits
its codec. -/
theorem readLeaves_round {ws vs : List Nat} {buf : List Nat} {off : Nat}
    {t : List Nat} (hfit : fitsLeaves ws vs = true)
    (hdrop : buf.drop off = (List.zipWith writeBytes ws vs).flatten ++ t) :
    readLeaves ws buf off = vs := by
  induction ws generalizing vs off with
  | nil =>
    cases vs with
    | nil => rfl
    | cons v vs => simp [fitsLeaves] at hfit
  | cons w ws ih =>
    cases vs with
    | nil => simp [fitsLeaves] at hfit
    | cons v vs =>
      simp only [fitsLeaves, Bool.and_eq_true, decide_eq_true_eq] at hfit
      have hdrop' : buf.drop off = writeBytes w v ++
          ((List.zipWith writeBytes ws vs).flatten ++ t) := by
        simpa [List.append_assoc] using hdrop
      have hval : readNat buf off w = v := by
        rw [readNat_writeBytes hdrop']
        exact Nat.mod_eq_of_lt hfit.1
      have hnext := drop_advance hdrop'
      rw [writeBytes_length] at hnext
      simp only [readLeaves, hval]
      rw [ih hfit.2 hnext]

/-- The component loop of the entity-record decoder reproduces the inserted
components bit for bit. -/
theorem decodeComponentsLoop_round {model : Model} {cs : List Component}
    {buffer : List Nat} {offset : Nat} {rest : List Nat}
    (hok : cs.all (componentOK model) = true)
    (hdrop : buffer.drop offset = (cs.map (componentRecordBytes model)).flatten ++ rest) :
    decodeComponentsLoop buffer model offset cs.length =
      (((cs.map (componentRecordBytes model)).flatten).length, cs) := by
  induction cs generalizing offset rest with
  | nil => simp [decodeComponentsLoop]
  | cons c cs ih =>
    simp only [List.all_cons, Bool.and_eq_true] at hok
    obtain ⟨hc, hcs⟩ := hok
    simp only [componentOK, Bool.and_eq_true, decide_eq_true_eq] at hc
    obtain ⟨htid, hc2⟩ := hc
    cases hg : alistGet model c.tid with
    | none => rw [hg] at hc2; simp at hc2
    | some nd =>
      rw [hg] at hc2
      simp only [Bool.and_eq_true, decide_eq_true_eq] at hc2
      obtain ⟨hfit, hlen⟩ := hc2
      have hcb : componentRecordBytes model c =
          writeBytes 1 c.tid ++ writeBytes 2 (encodeComponentBytes nd c.values).length ++
            encodeComponentBytes nd c.values := by
        simp [componentRecordBytes, hg]
      have hdrop1 : buffer.drop offset = writeBytes 1 c.tid ++
          (writeBytes 2 (encodeComponentBytes nd c.values).length ++
            (encodeComponentBytes nd c.values ++
              ((cs.map (componentRecordBytes model)).flatten ++ rest))) := by
        simpa [hcb, List.append_assoc] using hdrop
      have htidv : readNat buffer offset 1 = c.tid := by
        rw [readNat_writeBytes hdrop1]
        exact Nat.mod_eq_of_lt (by simpa using htid)
      have hdrop2 := drop_advance hdrop1
      rw [writeBytes_length] at hdrop2
      have hlenv : readNat buffer (offset + 1) 2 =
          (encodeComponentBytes nd c.values).length := by
        rw [readNat_writeBytes hdrop2]
        exact Nat.mod_eq_of_lt (by simpa using hlen)
      have hdrop3 := drop_advance hdrop2
      rw [writeBytes_length] at hdrop3
      have hdrop3' : buffer.drop (offset + 1 + 2) =
          encodeComponentBytes nd c.values ++
            ((cs.map (componentRecordBytes model)).flatten ++ rest) := hdrop3
      have hslice : (buffer.drop (offset + 3)).take
          (encodeComponentBytes nd c.values).length = encodeComponentBytes nd c.values := by
        have := take_of_drop hdrop3'
        simpa [Nat.add_assoc] using this
      have hvals : decodeComponentValues nd
          ((buffer.drop (offset + 3)).take (encodeComponentBytes nd c.values).length) =
          c.values := by
        rw [hslice]
        exact readLeaves_round (t := []) hfit (by simp [encodeComponentBytes])
      have hdrop4 : buffer.drop (offset + 3 + (encodeComponentBytes nd c.values).length) =
          (cs.map (componentRecordBytes model)).flatten ++ rest := by
        have := drop_advance hdrop3'
        simpa [Nat.add_assoc] using this
      have ihh := ih hcs hdrop4
      simp only [decodeComponentsLoop, htidv, hlenv, hg, hvals, ihh]
      have hflen : ((c :: cs).map (componentRecordBytes model)).flatten.length =
          3 + (encodeComponentBytes nd c.values).length +
          ((cs.map (componentRecordBytes model)).flatten).length := by
        simp [hcb]
        omega
      rw [hflen]

theorem decodeEntityRecords_stop {buffer : List Nat} {model : Model}
    {endPos o : Nat} (ho : ¬ o < endPos) :
    decodeEntityRecords buffer model endPos o = (o, []) := by
  rw [decodeEntityRecords]
  simp [ho]

theorem decodeDetachRecords_stop {buffer : List Nat} {endPos o : Nat}
    (ho : ¬ o < endPos) : decodeDetachRecords buffer endPos o = (o, []) := by
  rw [decodeDetachRecords]
  simp [ho]

theorem decodeDestroyRecords_stop {buffer : List Nat} {endPos o : Nat}
    (ho : ¬ o < endPos) : decodeDestroyRecords buffer endPos o = (o, []) := by
  rw [decodeDestroyRecords]
  simp [ho]

theorem recordBytes_length (model : Model) (e : Nat) (cs : List Component) :
    (recordBytes model e cs).length =
      5 + ((cs.map (componentRecordBytes model)).flatten).length := by
  simp [recordBytes]
  omega

/-- The record loop of the entity-component decoder reproduces the inserted
records.  `endPos` sits two bytes before the section's true end, exactly as
the source computes it; since every record is at least five bytes the loop
nevertheless stops precisely at the section boundary. -/
theorem decodeEntityRecords_round {model : Model} {q : List (Nat × List Component)}
    {buffer : List Nat} {offset E : Nat} {rest : List Nat}
    (hok : q.all (fun r => recordOK model r.1 r.2) = true)
    (hdrop : buffer.drop offset = sectionBytes model q ++ rest)
    (hend : offset + (sectionBytes model q).length = E + 2) :
    decodeEntityRecords buffer model E offset =
      (offset + (sectionBytes model q).length, q) := by
  induction q generalizing offset rest with
  | nil =>
    simp only [sectionBytes, List.map_nil, List.flatten_nil, List.length_nil] at hend ⊢
    rw [decodeEntityRecords_stop (by omega)]
    simp
  | cons r q ih =>
    rcases r with ⟨e, cs⟩
    simp only [List.all_cons, Bool.and_eq_true] at hok
    obtain ⟨hr, hrs⟩ := hok
    simp only [recordOK, Bool.and_eq_true, decide_eq_true_eq] at hr
    obtain ⟨⟨he, hcnt⟩, hcomps⟩ := hr
    have hsec : sectionBytes model ((e, cs) :: q) =
        recordBytes model e cs ++ sectionBytes model q := by
      simp [sectionBytes]
    have hdrop1 : buffer.drop offset = writeBytes 4 e ++
        (writeBytes 1 cs.length ++
          ((cs.map (componentRecordBytes model)).flatten ++
            (sectionBytes model q ++ rest))) := by
      rw [hdrop, hsec]
      simp [recordBytes, List.append_assoc]
    have hrl := recordBytes_length model e cs
    have hlt : offset < E := by
      rw [hsec] at hend
      simp only [List.length_append] at hend
      omega
    have hev : readNat buffer offset 4 = e := by
      rw [readNat_writeBytes hdrop1]
      exact Nat.mod_eq_of_lt (by simpa using he)
    have hdrop2 := drop_advance hdrop1
    rw [writeBytes_length] at hdrop2
    have hcntv : readNat buffer (offset + 4) 1 = cs.length := by
      rw [readNat_writeBytes hdrop2]
      exact Nat.mod_eq_of_lt (by simpa using hcnt)
    have hdrop3 := drop_advance hdrop2
    rw [writeBytes_length] at hdrop3
    have hdrop3' : buffer.drop (offset + 5) =
        (cs.map (componentRecordBytes model)).flatten ++
          (sectionBytes model q ++ rest) := by
      simpa [Nat.add_assoc] using hdrop3
    have hloop := decodeComponentsLoop_round hcomps hdrop3'
    have hdrop4 : buffer.drop
        (offset + 5 + ((cs.map (componentRecordBytes model)).flatten).length) =
        sectionBytes model q ++ rest := by
      have := drop_advance hdrop3'
      simpa [Nat.add_assoc] using this
    have hend' : offset + 5 + ((cs.map (componentRecordBytes model)).flatten).length +
        (sectionBytes model q).length = E + 2 := by
      rw [hsec] at hend
      simp only [List.length_append] at hend
      omega
    have ihh := ih hrs hdrop4 hend'
    rw [decodeEntityRecords]
    simp only [hlt, dif_pos, hev, hcntv, hloop, ihh]
    have : offset + 5 + ((cs.map (componentRecordBytes model)).flatten).length +
        (sectionBytes model q).length =
        offset + (sectionBytes model ((e, cs) :: q)).length := by
      rw [hsec]
      simp only [List.length_append]
      omega
    rw [this]

mutual
theorem nodeSize_lt_encode : ∀ n : ModelNode, nodeSize n + 1 ≤ (encodeNodeBytes n).length
  | .prim w => by simp [nodeSize, encodeNodeBytes]
  | .obj cs => by
    have := nodesSize_le_encode cs
    simp only [nodeSize, encodeNodeBytes, List.length_cons]
    omega
theorem nodesSize_le_encode : ∀ cs : ModelNodeList, nodesSize cs ≤ (encodeNodesBytes cs).length
  | .nil => by simp [nodesSize, encodeNodesBytes]
  | .cons c cs => by
    have h1 := nodeSize_lt_encode c
    have h2 := nodesSize_le_encode cs
    simp only [nodesSize, encodeNodesBytes, List.length_append]
    omega
end

mutual
theorem decodeSchemaF_round : ∀ (n : ModelNode) (rest : List Nat) (f : Nat),
    nodeWF n = true → nodeSize n ≤ f →
    decodeSchemaF f (encodeNodeBytes n ++ rest) = some (n, rest)
  | .prim w, rest, f, hwf, hf => by
    have hw : w < 256 := by simpa [nodeWF] using hwf
    have hf1 : 1 ≤ f := by simpa [nodeSize] using hf
    obtain ⟨f', rfl⟩ : ∃ f', f = f' + 1 := ⟨f - 1, by omega⟩
    simp [encodeNodeBytes, decodeSchemaF, Nat.mod_eq_of_lt hw]
  | .obj cs, rest, f, hwf, hf => by
    simp only [nodeWF, Bool.and_eq_true, decide_eq_true_eq] at hwf
    have hf1 : 1 + nodesSize cs ≤ f := by simpa [nodeSize] using hf
    obtain ⟨f', rfl⟩ : ∃ f', f = f' + 1 := ⟨f - 1, by omega⟩
    have hrec := decodeSchemasF_round cs rest f' hwf.2 (by omega)
    simp [encodeNodeBytes, decodeSchemaF, Nat.mod_eq_of_lt hwf.1, hrec]
theorem decodeSchemasF_round : ∀ (cs : ModelNodeList) (rest : List Nat) (f : Nat),
    nodesWF cs = true → nodesSize cs ≤ f →
    decodeSchemasF f (nodesLen cs) (encodeNodesBytes cs ++ rest) = some (cs, rest)
  | .nil, rest, f, _, _ => by
    simp [nodesLen, encodeNodesBytes, decodeSchemasF]
  | .cons c cs, rest, f, hwf, hf => by
    simp only [nodesWF, Bool.and_eq_true] at hwf
    have hf1 : 1 + nodeSize c + nodesSize cs ≤ f := by simpa [nodesSize] using hf
    obtain ⟨f', rfl⟩ : ∃ f', f = f' + 1 := ⟨f - 1, by omega⟩
    have h1 := decodeSchemaF_round c (encodeNodesBytes cs ++ rest) f' hwf.1 (by omega)
    have h2 := decodeSchemasF_round cs rest f' hwf.2 (by omega)
    simp only [nodesLen, encodeNodesBytes, List.append_assoc]
    simp [decodeSchemasF, h1, h2]
end

theorem model_length_le_encode (model : Model) :
    model.length ≤ (encodeModel model).length := by
  induction model with
  | nil => simp [encodeModel]
  | cons e rest ih =>
    rcases e with ⟨tid, n⟩
    have := nodeSize_lt_encode n
    simp only [encodeModel, List.length_cons, List.length_append]
    omega

theorem decodeModelEntriesF_round {model : Model} {f : Nat}
    (hwf : modelWF model = true) (hf : model.length ≤ f) :
    decodeModelEntriesF f (encodeModel model) = .ok model := by
  induction model generalizing f with
  | nil => cases f <;> rfl
  | cons e rest ih =>
    rcases e with ⟨tid, n⟩
    simp only [modelWF, Bool.and_eq_true, decide_eq_true_eq] at hwf
    obtain ⟨⟨htid, hn⟩, hrest⟩ := hwf
    obtain ⟨f', rfl⟩ : ∃ f', f = f' + 1 :=
      ⟨f - 1, by simp only [List.length_cons] at hf; omega⟩
    have hsize : nodeSize n ≤ (encodeNodeBytes n ++ encodeModel rest).length := by
      have h1 := nodeSize_lt_encode n
      have h2 : (encodeNodeBytes n ++ encodeModel rest).length =
          (encodeNodeBytes n).length + (encodeModel rest).length := by simp
      omega
    have hsch := decodeSchemaF_round n (encodeModel rest)
      (encodeNodeBytes n ++ encodeModel rest).length hn hsize
    have ihh := ih (f := f') hrest (by simp only [List.length_cons] at hf; omega)
    simp only [encodeModel, Nat.mod_eq_of_lt htid]
    simp only [List.cons_append]
    simp only [decodeModelEntriesF]
    rw [hsch]
    simp only [ihh]

/-- The model section decoder reconstructs the encoded model. -/
theorem decodeModel_round {model : Model} {buffer : List Nat} {offset : Nat}
    {rest : List Nat} (hwf : modelWF model = true)
    (hlen : (encodeModel model).length < 65536) (hne : encodeModel model ≠ [])
    (hdrop : buffer.drop offset =
      writeBytes 2 (encodeModel model).length ++ (encodeModel model ++ rest)) :
    decodeModel buffer offset =
      .ok (offset + 2 + (encodeModel model).length, some model) := by
  have hval : readNat buffer offset 2 = (encodeModel model).length := by
    rw [readNat_writeBytes hdrop]
    exact Nat.mod_eq_of_lt (by simpa using hlen)
  have hdrop2 := drop_advance hdrop
  rw [writeBytes_length] at hdrop2
  have hslice := take_of_drop hdrop2
  have hnz : (encodeModel model).length ≠ 0 := by
    simpa [List.length_eq_zero] using hne
  unfold decodeModel
  rw [hval]
  rw [if_neg hnz]
  rw [hslice]
  dsimp only
  rw [decodeModelEntriesF_round hwf (model_length_le_encode model)]

theorem componentEntries_payload (model : Model) (c : Component) :
    ((componentEntriesOf model c).map entryBytes).flatten = componentRecordBytes model c := by
  cases hg : alistGet model c.tid <;>
    simp [componentEntriesOf, componentRecordBytes, hg, entryBytes]

theorem componentEntries_payload_list (model : Model) (cs : List Component) :
    (((cs.map (componentEntriesOf model)).flatten).map entryBytes).flatten =
      (cs.map (componentRecordBytes model)).flatten := by
  induction cs with
  | nil => rfl
  | cons c cs ih =>
    simp only [List.map_cons, List.flatten_cons, List.map_append, List.flatten_append]
    rw [componentEntries_payload, ih]

theorem recordEntries_payload (model : Model) (e : Nat) (cs : List Component) :
    ((recordEntries model e cs).map entryBytes).flatten = recordBytes model e cs := by
  simp only [recordEntries, recordBytes, List.map_cons, List.flatten_cons, entryBytes]
  rw [componentEntries_payload_list]
  simp [List.append_assoc]

theorem all_imp_of {α : Type} {p q : α → Bool} {l : List α}
    (himp : ∀ a, p a = true → q a = true) (h : l.all p = true) : l.all q = true := by
  induction l with
  | nil => rfl
  | cons a l ih =>
    simp only [List.all_cons, Bool.and_eq_true] at h ⊢
    exact ⟨himp a h.1, ih h.2⟩

theorem componentOK_present {model : Model} {c : Component}
    (h : componentOK model c = true) : (alistGet model c.tid).isSome = true := by
  simp only [componentOK, Bool.and_eq_true] at h
  cases hg : alistGet model c.tid with
  | none => rw [hg] at h; simp at h
  | some nd => rfl

theorem insertComponents_eq {model : Model} {cs : List Component} (p : Part)
    (h : cs.all (fun c => (alistGet model c.tid).isSome) = true) :
    insertComponents model p cs = .ok
      { data := p.data ++ (cs.map (componentEntriesOf model)).flatten
        byteLength :=
          p.byteLength + ((cs.map (componentRecordBytes model)).flatten).length } := by
  induction cs generalizing p with
  | nil => simp [insertComponents]
  | cons c cs ih =>
    simp only [List.all_cons, Bool.and_eq_true] at h
    cases hg : alistGet model c.tid with
    | none => rw [hg] at h; simp at h
    | some nd =>
      simp only [insertComponents, hg]
      rw [ih _ h.2]
      simp only [insert, insertBuffer, Except.ok.injEq, Part.mk.injEq]
      constructor
      · simp [componentEntriesOf, hg, List.append_assoc]
      · simp [componentRecordBytes, hg, List.length_append]
        omega

theorem insertEntityComponents_eq {model : Model} {e : Nat} {cs : List Component}
    (p : Part) (h : cs.all (fun c => (alistGet model c.tid).isSome) = true) :
    insertEntityComponents p e cs model = .ok
      { data := p.data ++ recordEntries model e cs
        byteLength := p.byteLength + (recordBytes model e cs).length } := by
  unfold insertEntityComponents
  rw [insertComponents_eq _ h]
  simp only [insert, Except.ok.injEq, Part.mk.injEq, recordEntries]
  constructor
  · simp [List.append_assoc]
  · rw [recordBytes_length]
    omega

/-- Components of a spawn/attach/update call. -/
def opComponents : SectionOp → List Component
  | .spawnOp _ cs => cs
  | .attachOp _ cs => cs
  | .updateOp _ cs => cs

theorem opOK_present {model : Model} {op : SectionOp} (h : opOK model op = true) :
    (opComponents op).all (fun c => (alistGet model c.tid).isSome) = true := by
  cases op with
  | spawnOp e cs =>
    simp only [opOK, recordOK, Bool.and_eq_true] at h
    exact all_imp_of (fun c hc => componentOK_present hc) h.2
  | attachOp e cs =>
    simp only [opOK, recordOK, Bool.and_eq_true] at h
    exact all_imp_of (fun c hc => componentOK_present hc) h.2
  | updateOp e cs =>
    simp only [opOK, recordOK, Bool.and_eq_true] at h
    exact all_imp_of (fun c hc => componentOK_present hc) h.2

/-- Applying a call sequence appends each call's record entries to its
section, adds the record bytes to the section's byte length, and leaves the
rest of the message untouched. -/
theorem applyOps_shape {ops : List SectionOp} {z m : Message}
    (hops : ops.all (opOK z.model) = true) (happ : applyOps z ops = .ok m) :
    m.partSpawn.data = z.partSpawn.data ++
      ((spawnsOf ops).map (fun r => recordEntries z.model r.1 r.2)).flatten ∧
    m.partSpawn.byteLength =
      z.partSpawn.byteLength + (sectionBytes z.model (spawnsOf ops)).length ∧
    m.partAttach.data = z.partAttach.data ++
      ((attachesOf ops).map (fun r => recordEntries z.model r.1 r.2)).flatten ∧
    m.partAttach.byteLength =
      z.partAttach.byteLength + (sectionBytes z.model (attachesOf ops)).length ∧
    m.partUpdate.data = z.partUpdate.data ++
      ((updatesOf ops).map (fun r => recordEntries z.model r.1 r.2)).flatten ∧
    m.partUpdate.byteLength =
      z.partUpdate.byteLength + (sectionBytes z.model (updatesOf ops)).length ∧
    m.partTick = z.partTick ∧ m.partModel = z.partModel ∧
    m.partPatch = z.partPatch ∧ m.changeMapByEntity = z.changeMapByEntity ∧
    m.partDetach = z.partDetach ∧ m.partDestroy = z.partDestroy ∧
    m.model = z.model ∧ m.modelFlat = z.modelFlat := by
  induction ops generalizing z with
  | nil =>
    simp only [applyOps, Except.ok.injEq] at happ
    subst happ
    simp [spawnsOf, attachesOf, updatesOf, sectionBytes]
  | cons op rest ih =>
    simp only [List.all_cons, Bool.and_eq_true] at hops
    obtain ⟨hop, hrest⟩ := hops
    simp only [applyOps] at happ
    cases op with
    | spawnOp e cs =>
      have hpres := opOK_present hop
      simp only [applyOp, spawn] at happ
      rw [insertEntityComponents_eq _ (by exact hpres)] at happ
      simp only [Except.map] at happ
      have ihh := ih (z := { z with partSpawn :=
        { data := z.partSpawn.data ++ recordEntries z.model e cs
          byteLength := z.partSpawn.byteLength + (recordBytes z.model e cs).length } })
        (by exact hrest) happ
      simp only [spawnsOf, attachesOf, updatesOf, List.map_cons, List.flatten_cons,
        sectionBytes] at ihh ⊢
      obtain ⟨a1, a2, a3, a4, a5, a6, a7, a8, a9, a10, a11, a12, a13, a14⟩ := ihh
      refine ⟨?_, ?_, ?_, ?_, ?_, ?_, a7, a8, a9, a10, a11, a12, a13, a14⟩
      · rw [a1]; simp [List.append_assoc]
      · rw [a2]; simp [sectionBytes, List.length_append]; omega
      · exact a3
      · rw [a4]
      · exact a5
      · rw [a6]
    | attachOp e cs =>
      have hpres := opOK_present hop
      simp only [applyOp, attach] at happ
      rw [insertEntityComponents_eq _ (by exact hpres)] at happ
      simp only [Except.map] at happ
      have ihh := ih (z := { z with partAttach :=
        { data := z.partAttach.data ++ recordEntries z.model e cs
          byteLength := z.partAttach.byteLength + (recordBytes z.model e cs).length } })
        (by exact hrest) happ
      simp only [spawnsOf, attachesOf, updatesOf, List.map_cons, List.flatten_cons,
        sectionBytes] at ihh ⊢
      obtain ⟨a1, a2, a3, a4, a5, a6, a7, a8, a9, a10, a11, a12, a13, a14⟩ := ihh
      refine ⟨a1, ?_, ?_, ?_, a5, ?_, a7, a8, a9, a10, a11, a12, a13, a14⟩
      · rw [a2]
      · rw [a3]; simp [List.append_assoc]
      · rw [a4]; simp [sectionBytes, List.length_append]; omega
      · rw [a6]
    | updateOp e cs =>
      have hpres := opOK_present hop
      simp only [applyOp, update] at happ
      rw [insertEntityComponents_eq _ (by exact hpres)] at happ
      simp only [Except.map] at happ
      have ihh := ih (z := { z with partUpdate :=
        { data := z.partUpdate.data ++ recordEntries z.model e cs
          byteLength := z.partUpdate.byteLength + (recordBytes z.model e cs).length } })
        (by exact hrest) happ
      simp only [spawnsOf, attachesOf, updatesOf, List.map_cons, List.flatten_cons,
        sectionBytes] at ihh ⊢
      obtain ⟨a1, a2, a3, a4, a5, a6, a7, a8, a9, a10, a11, a12, a13, a14⟩ := ihh
      refine ⟨a1, ?_, a3, ?_, ?_, ?_, a7, a8, a9, a10, a11, a12, a13, a14⟩
      · rw [a2]
      · rw [a4]
      · rw [a5]; simp [List.append_assoc]
      · rw [a6]; simp [sectionBytes, List.length_append]; omega

theorem sectionEntries_payload (model : Model) (rs : List (Nat × List Component)) :
    (((rs.map (fun r => recordEntries model r.1 r.2)).flatten).map entryBytes).flatten =
      sectionBytes model rs := by
  induction rs with
  | nil => rfl
  | cons r rs ih =>
    simp only [List.map_cons, List.flatten_cons, List.map_append, List.flatten_append,
      sectionBytes]
    rw [recordEntries_payload]
    simpa [sectionBytes] using ih

theorem spawnsOf_ok {model : Model} {ops : List SectionOp}
    (h : ops.all (opOK model) = true) :
    (spawnsOf ops).all (fun r => recordOK model r.1 r.2) = true := by
  induction ops with
  | nil => rfl
  | cons op rest ih =>
    simp only [List.all_cons, Bool.and_eq_true] at h
    cases op with
    | spawnOp e cs =>
      simp only [spawnsOf, List.all_cons, Bool.and_eq_true]
      exact ⟨h.1, ih h.2⟩
    | attachOp e cs => simpa [spawnsOf] using ih h.2
    | updateOp e cs => simpa [spawnsOf] using ih h.2

theorem attachesOf_ok {model : Model} {ops : List SectionOp}
    (h : ops.all (opOK model) = true) :
    (attachesOf ops).all (fun r => recordOK model r.1 r.2) = true := by
  induction ops with
  | nil => rfl
  | cons op rest ih =>
    simp only [List.all_cons, Bool.and_eq_true] at h
    cases op with
    | attachOp e cs =>
      simp only [attachesOf, List.all_cons, Bool.and_eq_true]
      exact ⟨h.1, ih h.2⟩
    | spawnOp e cs => simpa [attachesOf] using ih h.2
    | updateOp e cs => simpa [attachesOf] using ih h.2

theorem updatesOf_ok {model : Model} {ops : List SectionOp}
    (h : ops.all (opOK model) = true) :
    (updatesOf ops).all (fun r => recordOK model r.1 r.2) = true := by
  induction ops with
  | nil => rfl
  | cons op rest ih =>
    simp only [List.all_cons, Bool.and_eq_true] at h
    cases op with
    | updateOp e cs =>
      simp only [updatesOf, List.all_cons, Bool.and_eq_true]
      exact ⟨h.1, ih h.2⟩
    | spawnOp e cs => simpa [updatesOf] using ih h.2
    | attachOp e cs => simpa [updatesOf] using ih h.2

/-- The trailing empty patch, detach and destroy section headers of a wire
buffer holding only entity data. -/
def wireDetachTail : List Nat :=
  writeBytes 2 0 ++ (writeBytes 2 0 ++ writeBytes 2 0)

/-- Update section onward. -/
def wireUpdateTail (model : Model) (rsU : List (Nat × List Component)) : List Nat :=
  writeBytes 2 (sectionBytes model rsU).length ++ (sectionBytes model rsU ++ wireDetachTail)

/-- Attach section onward. -/
def wireAttachTail (model : Model) (rsA rsU : List (Nat × List Component)) : List Nat :=
  writeBytes 2 (sectionBytes model rsA).length ++
    (sectionBytes model rsA ++ wireUpdateTail model rsU)

/-- Spawn section onward. -/
def wireSpawnTail (model : Model) (rsS rsA rsU : List (Nat × List Component)) : List Nat :=
  writeBytes 2 (sectionBytes model rsS).length ++
    (sectionBytes model rsS ++ wireAttachTail model rsA rsU)

/-- Model section onward. -/
def wireModelTail (model : Model) (rsS rsA rsU : List (Nat × List Component)) : List Nat :=
  writeBytes 2 (encodeModel model).length ++
    (encodeModel model ++ wireSpawnTail model rsS rsA rsU)

/-- A full wire buffer: empty tick section, the model, three entity
sections, then the empty trailing sections. -/
def wireOf (model : Model) (rsS rsA rsU : List (Nat × List Component)) : List Nat :=
  writeBytes 2 0 ++ wireModelTail model rsS rsA rsU

/-- The wire bytes of a message assembled by a spawn/attach/update call
sequence and encoded with the model included. -/
def opsWire (model : Model) (ops : List SectionOp) : List Nat :=
  wireOf model (spawnsOf ops) (attachesOf ops) (updatesOf ops)

/-- Decoding a wire buffer of three entity sections (model in stream, no
caller-supplied model) reproduces every record as one handler invocation, in
section and insertion order. -/
theorem decodeMessage_wire (model : Model) (rsS rsA rsU : List (Nat × List Component))
    (hwf : modelWF model = true) (hne : encodeModel model ≠ [])
    (hmlen : (encodeModel model).length < 65536)
    (hsOK : rsS.all (fun r => recordOK model r.1 r.2) = true)
    (haOK : rsA.all (fun r => recordOK model r.1 r.2) = true)
    (huOK : rsU.all (fun r => recordOK model r.1 r.2) = true)
    (hs : (sectionBytes model rsS).length < 65536)
    (ha : (sectionBytes model rsA).length < 65536)
    (hu : (sectionBytes model rsU).length < 65536) :
    decodeMessage (wireOf model rsS rsA rsU) none =
      (DecodeEvent.onModel model ::
        (rsS.map (fun r => DecodeEvent.onCreate r.1 r.2) ++
         (rsA.map (fun r => DecodeEvent.onAttach r.1 r.2) ++
          (rsU.map (fun r => DecodeEvent.onUpdate r.1 r.2) ++
           [DecodeEvent.onPatch (2 + 2 + (encodeModel model).length + 2 +
             (sectionBytes model rsS).length + 2 + (sectionBytes model rsA).length +
             2 + (sectionBytes model rsU).length)]))), none) := by
  have t0 : (wireOf model rsS rsA rsU).drop 0 =
      writeBytes 2 0 ++ wireModelTail model rsS rsA rsU := rfl
  have hr0 : readNat (wireOf model rsS rsA rsU) 0 2 = 0 := by
    rw [readNat_writeBytes t0]
    exact Nat.zero_mod _
  have t1 : (wireOf model rsS rsA rsU).drop 2 =
      writeBytes 2 (encodeModel model).length ++
        (encodeModel model ++ wireSpawnTail model rsS rsA rsU) := by
    simpa only [writeBytes_length, Nat.zero_add] using drop_advance t0
  have hdm := decodeModel_round hwf hmlen hne t1
  have t2 : (wireOf model rsS rsA rsU).drop (2 + 2) =
      encodeModel model ++ wireSpawnTail model rsS rsA rsU := by
    simpa only [writeBytes_length] using drop_advance t1
  have t3 : (wireOf model rsS rsA rsU).drop (2 + 2 + (encodeModel model).length) =
      writeBytes 2 (sectionBytes model rsS).length ++
        (sectionBytes model rsS ++ wireAttachTail model rsA rsU) := drop_advance t2
  have hrS : readNat (wireOf model rsS rsA rsU) (2 + 2 + (encodeModel model).length) 2 =
      (sectionBytes model rsS).length := by
    rw [readNat_writeBytes t3]
    exact Nat.mod_eq_of_lt (by simpa using hs)
  have t4 : (wireOf model rsS rsA rsU).drop (2 + 2 + (encodeModel model).length + 2) =
      sectionBytes model rsS ++ wireAttachTail model rsA rsU := by
    simpa only [writeBytes_length] using drop_advance t3
  have hspawnRec := decodeEntityRecords_round (q := rsS)
    (E := 2 + 2 + (encodeModel model).length + (sectionBytes model rsS).length)
    hsOK t4 (by omega)
  have hsp : decodeEntityComponentsPart (wireOf model rsS rsA rsU) model
      (2 + 2 + (encodeModel model).length) =
      (2 + 2 + (encodeModel model).length + 2 + (sectionBytes model rsS).length, rsS) := by
    simp only [decodeEntityComponentsPart]
    rw [hrS]
    exact hspawnRec
  have t5 : (wireOf model rsS rsA rsU).drop
      (2 + 2 + (encodeModel model).length + 2 + (sectionBytes model rsS).length) =
      writeBytes 2 (sectionBytes model rsA).length ++
        (sectionBytes model rsA ++ wireUpdateTail model rsU) := drop_advance t4
  have hrA : readNat (wireOf model rsS rsA rsU)
      (2 + 2 + (encodeModel model).length + 2 + (sectionBytes model rsS).length) 2 =
      (sectionBytes model rsA).length := by
    rw [readNat_writeBytes t5]
    exact Nat.mod_eq_of_lt (by simpa using ha)
  have t6 : (wireOf model rsS rsA rsU).drop
      (2 + 2 + (encodeModel model).length + 2 + (sectionBytes model rsS).length + 2) =
      sectionBytes model rsA ++ wireUpdateTail model rsU := by
    simpa only [writeBytes_length] using drop_advance t5
  have hattachRec := decodeEntityRecords_round (q := rsA)
    (E := 2 + 2 + (encodeModel model).length + 2 + (sectionBytes model rsS).length +
      (sectionBytes model rsA).length)
    haOK t6 (by omega)
  have hat : decodeEntityComponentsPart (wireOf model rsS rsA rsU) model
      (2 + 2 + (encodeModel model).length + 2 + (sectionBytes model rsS).length) =
      (2 + 2 + (encodeModel model).length + 2 + (sectionBytes model rsS).length + 2 +
        (sectionBytes model rsA).length, rsA) := by
    simp only [decodeEntityComponentsPart]
    rw [hrA]
    exact hattachRec
  have t7 : (wireOf model rsS rsA rsU).drop
      (2 + 2 + (encodeModel model).length + 2 + (sectionBytes model rsS).length + 2 +
        (sectionBytes model rsA).length) =
      writeBytes 2 (sectionBytes model rsU).length ++
        (sectionBytes model rsU ++ wireDetachTail) := drop_advance t6
  have hrU : readNat (wireOf model rsS rsA rsU)
      (2 + 2 + (encodeModel model).length + 2 + (sectionBytes model rsS).length + 2 +
        (sectionBytes model rsA).length) 2 = (sectionBytes model rsU).length := by
    rw [readNat_writeBytes t7]
    exact Nat.mod_eq_of_lt (by simpa using hu)
  have t8 : (wireOf model rsS rsA rsU).drop
      (2 + 2 + (encodeModel model).length + 2 + (sectionBytes model rsS).length + 2 +
        (sectionBytes model rsA).length + 2) =
      sectionBytes model rsU ++ wireDetachTail := by
    simpa only [writeBytes_length] using drop_advance t7
  have hupdateRec := decodeEntityRecords_round (q := rsU)
    (E := 2 + 2 + (encodeModel model).length + 2 + (sectionBytes model rsS).length +
      2 + (sectionBytes model rsA).length + (sectionBytes model rsU).length)
    huOK t8 (by omega)
  have hup : decodeEntityComponentsPart (wireOf model rsS rsA rsU) model
      (2 + 2 + (encodeModel model).length + 2 + (sectionBytes model rsS).length + 2 +
        (sectionBytes model rsA).length) =
      (2 + 2 + (encodeModel model).length + 2 + (sectionBytes model rsS).length + 2 +
        (sectionBytes model rsA).length + 2 + (sectionBytes model rsU).length, rsU) := by
    simp only [decodeEntityComponentsPart]
    rw [hrU]
    exact hupdateRec
  have t9 : (wireOf model rsS rsA rsU).drop
      (2 + 2 + (encodeModel model).length + 2 + (sectionBytes model rsS).length + 2 +
        (sectionBytes model rsA).length + 2 + (sectionBytes model rsU).length) =
      writeBytes 2 0 ++ (writeBytes 2 0 ++ writeBytes 2 0) := drop_advance t8
  have hrP : readNat (wireOf model rsS rsA rsU)
      (2 + 2 + (encodeModel model).length + 2 + (sectionBytes model rsS).length + 2 +
        (sectionBytes model rsA).length + 2 + (sectionBytes model rsU).length) 2 = 0 := by
    rw [readNat_writeBytes t9]
    exact Nat.zero_mod _
  have t10 : (wireOf model rsS rsA rsU).drop
      (2 + 2 + (encodeModel model).length + 2 + (sectionBytes model rsS).length + 2 +
        (sectionBytes model rsA).length + 2 + (sectionBytes model rsU).length + 2) =
      writeBytes 2 0 ++ writeBytes 2 0 := by
    simpa only [writeBytes_length] using drop_advance t9
  have hrDet : readNat (wireOf model rsS rsA rsU)
      (2 + 2 + (encodeModel model).length + 2 + (sectionBytes model rsS).length + 2 +
        (sectionBytes model rsA).length + 2 + (sectionBytes model rsU).length + 0 + 2) 2 =
      0 := by
    rw [readNat_writeBytes t10]
    exact Nat.zero_mod _
  have t11 : (wireOf model rsS rsA rsU).drop
      (2 + 2 + (encodeModel model).length + 2 + (sectionBytes model rsS).length + 2 +
        (sectionBytes model rsA).length + 2 + (sectionBytes model rsU).length + 2 + 2) =
      writeBytes 2 0 ++ ([] : List Nat) := by
    simpa only [writeBytes_length, List.append_nil] using drop_advance t10
  have hrDes : readNat (wireOf model rsS rsA rsU)
      (2 + 2 + (encodeModel model).length + 2 + (sectionBytes model rsS).length + 2 +
        (sectionBytes model rsA).length + 2 + (sectionBytes model rsU).length + 0 + 2 + 2)
      2 = 0 := by
    rw [readNat_writeBytes t11]
    exact Nat.zero_mod _
  have hdet : decodeDetach (wireOf model rsS rsA rsU)
      (2 + 2 + (encodeModel model).length + 2 + (sectionBytes model rsS).length + 2 +
        (sectionBytes model rsA).length + 2 + (sectionBytes model rsU).length + 0 + 2) =
      (2 + 2 + (encodeModel model).length + 2 + (sectionBytes model rsS).length + 2 +
        (sectionBytes model rsA).length + 2 + (sectionBytes model rsU).length + 0 + 2 + 2,
        []) := by
    simp only [decodeDetach]
    rw [hrDet]
    exact decodeDetachRecords_stop (by omega)
  have hdes : decodeDestroy (wireOf model rsS rsA rsU)
      (2 + 2 + (encodeModel model).length + 2 + (sectionBytes model rsS).length + 2 +
        (sectionBytes model rsA).length + 2 + (sectionBytes model rsU).length + 0 + 2 +
        2) =
      (2 + 2 + (encodeModel model).length + 2 + (sectionBytes model rsS).length + 2 +
        (sectionBytes model rsA).length + 2 + (sectionBytes model rsU).length + 0 + 2 +
        2 + 2, []) := by
    simp only [decodeDestroy]
    rw [hrDes]
    exact decodeDestroyRecords_stop (by omega)
  have hif : ¬ ((0 : Nat) > 0) := by omega
  unfold decodeMessage
  simp only [hr0, if_neg hif]
  rw [hdm]
  dsimp only
  simp only [Option.orElse]
  rw [hsp]
  dsimp only
  rw [hat]
  dsimp only
  rw [hup]
  dsimp only
  rw [hrP]
  rw [hdet]
  dsimp only
  rw [hdes]
  simp

/-- C1: for any model and any sequence of spawn/attach/update calls with
conforming components, encoding with the model included and decoding the
buffer invokes onCreate/onAttach/onUpdate once per inserted record, in
insertion order within each section, with the same entity ids and component
field values bit for bit (the decoded events carry the very records that
were inserted). -/
theorem c1_roundtrip (model : Model) (ops : List SectionOp) (m : Message)
    (hwf : modelWF model = true) (hne : encodeModel model ≠ [])
    (hmlen : (encodeModel model).length < 65536)
    (hops : ops.all (opOK model) = true)
    (happ : applyOps (createMessage model) ops = .ok m)
    (hs : (sectionBytes model (spawnsOf ops)).length < 65536)
    (ha : (sectionBytes model (attachesOf ops)).length < 65536)
    (hu : (sectionBytes model (updatesOf ops)).length < 65536) :
    encodeMessage m true = .ok (opsWire model ops, m) ∧
    decodeMessage (opsWire model ops) none =
      (DecodeEvent.onModel model ::
        ((spawnsOf ops).map (fun r => DecodeEvent.onCreate r.1 r.2) ++
         ((attachesOf ops).map (fun r => DecodeEvent.onAttach r.1 r.2) ++
          ((updatesOf ops).map (fun r => DecodeEvent.onUpdate r.1 r.2) ++
           [DecodeEvent.onPatch (2 + 2 + (encodeModel model).length + 2 +
             (sectionBytes model (spawnsOf ops)).length + 2 +
             (sectionBytes model (attachesOf ops)).length +
             2 + (sectionBytes model (updatesOf ops)).length)]))), none) := by
  obtain ⟨s1, s2, s3, s4, s5, s6, s7, s8, s9, s10, s11, s12, s13, s14⟩ :=
    applyOps_shape (z := createMessage model) (by exact hops) happ
  have hTickBL : m.partTick.byteLength = 0 := by rw [s7]; rfl
  have hTickPP : partPayload m.partTick = [] := by rw [s7]; rfl
  have hModelBL : m.partModel.byteLength = (encodeModel model).length := by
    rw [s8]
    simp [createMessage, insertBuffer, createPart]
  have hModelPP : partPayload m.partModel = encodeModel model := by
    rw [s8]
    simp [createMessage, insertBuffer, createPart, partPayload, entryBytes]
  have hSpawnD : m.partSpawn.data =
      ((spawnsOf ops).map (fun r => recordEntries model r.1 r.2)).flatten := by
    rw [s1]
    simp [createMessage, createPart]
  have hSpawnBL : m.partSpawn.byteLength = (sectionBytes model (spawnsOf ops)).length := by
    rw [s2]
    simp [createMessage, createPart]
  have hSpawnPP : partPayload m.partSpawn = sectionBytes model (spawnsOf ops) := by
    simp only [partPayload, hSpawnD]
    exact sectionEntries_payload model _
  have hAttachD : m.partAttach.data =
      ((attachesOf ops).map (fun r => recordEntries model r.1 r.2)).flatten := by
    rw [s3]
    simp [createMessage, createPart]
  have hAttachBL : m.partAttach.byteLength =
      (sectionBytes model (attachesOf ops)).length := by
    rw [s4]
    simp [createMessage, createPart]
  have hAttachPP : partPayload m.partAttach = sectionBytes model (attachesOf ops) := by
    simp only [partPayload, hAttachD]
    exact sectionEntries_payload model _
  have hUpdateD : m.partUpdate.data =
      ((updatesOf ops).map (fun r => recordEntries model r.1 r.2)).flatten := by
    rw [s5]
    simp [createMessage, createPart]
  have hUpdateBL : m.partUpdate.byteLength =
      (sectionBytes model (updatesOf ops)).length := by
    rw [s6]
    simp [createMessage, createPart]
  have hUpdatePP : partPayload m.partUpdate = sectionBytes model (updatesOf ops) := by
    simp only [partPayload, hUpdateD]
    exact sectionEntries_payload model _
  have hPatchBL : m.partPatch.byteLength = 0 := by rw [s9]; rfl
  have hCME : m.changeMapByEntity = [] := s10
  have hDetachBL : m.partDetach.byteLength = 0 := by rw [s11]; rfl
  have hDetachPP : partPayload m.partDetach = [] := by rw [s11]; rfl
  have hDestroyBL : m.partDestroy.byteLength = 0 := by rw [s12]; rfl
  have hDestroyPP : partPayload m.partDestroy = [] := by rw [s12]; rfl
  have hpl : encodePatchBytes m.modelFlat m.changeMapByEntity = .ok [] := by
    rw [hCME]
    rfl
  have hfull := encodePartsS_full m true hpl
  rw [hTickBL, hTickPP, hModelBL, hModelPP, hSpawnBL, hSpawnPP, hAttachBL, hAttachPP,
    hUpdateBL, hUpdatePP, hPatchBL, hDetachBL, hDetachPP, hDestroyBL, hDestroyPP] at hfull
  have hBeq : writeBytes 2 0 ++ [] ++
      (if true then writeBytes 2 (encodeModel model).length ++ encodeModel model
       else writeBytes 2 0) ++
      (writeBytes 2 (sectionBytes model (spawnsOf ops)).length ++
        sectionBytes model (spawnsOf ops)) ++
      (writeBytes 2 (sectionBytes model (attachesOf ops)).length ++
        sectionBytes model (attachesOf ops)) ++
      (writeBytes 2 (sectionBytes model (updatesOf ops)).length ++
        sectionBytes model (updatesOf ops)) ++
      (writeBytes 2 0 ++ []) ++ (writeBytes 2 0 ++ []) ++ (writeBytes 2 0 ++ []) =
      opsWire model ops := by
    simp [opsWire, wireOf, wireModelTail, wireSpawnTail, wireAttachTail, wireUpdateTail,
      wireDetachTail, List.append_assoc]
  rw [hBeq] at hfull
  have hwirelen : (opsWire model ops).length = encodeMessageLength m true := by
    simp only [encodeMessageLength, partsIndexList, List.foldl, partAt, hTickBL,
      hModelBL, hSpawnBL, hAttachBL, hUpdateBL, hPatchBL, hDetachBL, hDestroyBL]
    simp [opsWire, wireOf, wireModelTail, wireSpawnTail, wireAttachTail, wireUpdateTail,
      wireDetachTail]
    omega
  have hEnc : encodeMessage m true = .ok (opsWire model ops, m) := by
    unfold encodeMessage
    rw [hfull]
    dsimp only
    rw [hwirelen, Nat.sub_self]
    simp
  refine ⟨hEnc, ?_⟩
  exact decodeMessage_wire model (spawnsOf ops) (attachesOf ops) (updatesOf ops)
    hwf hne hmlen (spawnsOf_ok hops) (attachesOf_ok hops) (updatesOf_ok hops) hs ha hu

/-- A concrete call sequence for the round-trip witness. -/
def c1Ops : List SectionOp :=
  [.spawnOp 7 [{ tid := 0, values := [42] }],
   .attachOp 8 [{ tid := 0, values := [5] }],
   .updateOp 7 [{ tid := 0, values := [6] }]]

/-- The message assembled by the witness call sequence. -/
def c1Msg : Message :=
  ((applyOps (createMessage demoModel) c1Ops).toOption).getD (createMessage demoModel)

/-- C1 (witness): the concrete call sequence round-trips, every hypothesis
evaluated. -/
theorem c1_roundtrip_witness :
    modelWF demoModel = true ∧ encodeModel demoModel ≠ [] ∧
    (encodeModel demoModel).length < 65536 ∧ c1Ops.all (opOK demoModel) = true ∧
    applyOps (createMessage demoModel) c1Ops = .ok c1Msg ∧
    (sectionBytes demoModel (spawnsOf c1Ops)).length < 65536 ∧
    (sectionBytes demoModel (attachesOf c1Ops)).length < 65536 ∧
    (sectionBytes demoModel (updatesOf c1Ops)).length < 65536 ∧
    (encodeMessage c1Msg true = .ok (opsWire demoModel c1Ops, c1Msg) ∧
     decodeMessage (opsWire demoModel c1Ops) none =
       (DecodeEvent.onModel demoModel ::
         ((spawnsOf c1Ops).map (fun r => DecodeEvent.onCreate r.1 r.2) ++
          ((attachesOf c1Ops).map (fun r => DecodeEvent.onAttach r.1 r.2) ++
           ((updatesOf c1Ops).map (fun r => DecodeEvent.onUpdate r.1 r.2) ++
            [DecodeEvent.onPatch (2 + 2 + (encodeModel demoModel).length + 2 +
              (sectionBytes demoModel (spawnsOf c1Ops)).length + 2 +
              (sectionBytes demoModel (attachesOf c1Ops)).length +
              2 + (sectionBytes demoModel (updatesOf c1Ops)).length)]))), none)) :=
  ⟨by decide, by decide, by decide, by decide, rfl, by decide, by decide, by decide,
    c1_roundtrip demoModel c1Ops c1Msg (by decide) (by decide) (by decide) (by decide)
      rfl (by decide) (by decide) (by decide)⟩

/-- A wire buffer encoded with `includeModel = false`: the model section is
a bare zero header. -/
def wireOfNoModel (model : Model) (rsS rsA rsU : List (Nat × List Component)) : List Nat :=
  writeBytes 2 0 ++ (writeBytes 2 0 ++ wireSpawnTail model rsS rsA rsU)

/-- Decoding a model-less buffer with no caller-supplied model fails on the
source's assert, after the model section and before any entity section: no
handler has been invoked. -/
theorem decodeMessage_noModel_none (model : Model)
    (rsS rsA rsU : List (Nat × List Component)) :
    decodeMessage (wireOfNoModel model rsS rsA rsU) none =
      ([], some "Failed to decode network message: model not provided to decodeMessage() nor, was it encoded in message") := by
  have t0 : (wireOfNoModel model rsS rsA rsU).drop 0 =
      writeBytes 2 0 ++ (writeBytes 2 0 ++ wireSpawnTail model rsS rsA rsU) := rfl
  have hr0 : readNat (wireOfNoModel model rsS rsA rsU) 0 2 = 0 := by
    rw [readNat_writeBytes t0]
    exact Nat.zero_mod _
  have t1 : (wireOfNoModel model rsS rsA rsU).drop 2 =
      writeBytes 2 0 ++ wireSpawnTail model rsS rsA rsU := by
    simpa only [writeBytes_length, Nat.zero_add] using drop_advance t0
  have hr1 : readNat (wireOfNoModel model rsS rsA rsU) 2 2 = 0 := by
    rw [readNat_writeBytes t1]
    exact Nat.zero_mod _
  have hdm : decodeModel (wireOfNoModel model rsS rsA rsU) 2 = .ok (2 + 2, none) := by
    unfold decodeModel
    rw [hr1]
    rfl
  have hif : ¬ ((0 : Nat) > 0) := by omega
  unfold decodeMessage
  simp only [hr0, if_neg hif]
  rw [hdm]
  dsimp only
  simp [Option.orElse]

/-- Decoding a model-less buffer with the model supplied out of band
reproduces every record, without an `onModel` event. -/
theorem decodeMessage_wire_noModel (model : Model)
    (rsS rsA rsU : List (Nat × List Component))
    (hsOK : rsS.all (fun r => recordOK model r.1 r.2) = true)
    (haOK : rsA.all (fun r => recordOK model r.1 r.2) = true)
    (huOK : rsU.all (fun r => recordOK model r.1 r.2) = true)
    (hs : (sectionBytes model rsS).length < 65536)
    (ha : (sectionBytes model rsA).length < 65536)
    (hu : (sectionBytes model rsU).length < 65536) :
    decodeMessage (wireOfNoModel model rsS rsA rsU) (some model) =
      ((rsS.map (fun r => DecodeEvent.onCreate r.1 r.2) ++
         (rsA.map (fun r => DecodeEvent.onAttach r.1 r.2) ++
          (rsU.map (fun r => DecodeEvent.onUpdate r.1 r.2) ++
           [DecodeEvent.onPatch (2 + 2 + 2 + (sectionBytes model rsS).length + 2 +
             (sectionBytes model rsA).length + 2 + (sectionBytes model rsU).length)]))),
        none) := by
  have t0 : (wireOfNoModel model rsS rsA rsU).drop 0 =
      writeBytes 2 0 ++ (writeBytes 2 0 ++ wireSpawnTail model rsS rsA rsU) := rfl
  have hr0 : readNat (wireOfNoModel model rsS rsA rsU) 0 2 = 0 := by
    rw [readNat_writeBytes t0]
    exact Nat.zero_mod _
  have t1 : (wireOfNoModel model rsS rsA rsU).drop 2 =
      writeBytes 2 0 ++ wireSpawnTail model rsS rsA rsU := by
    simpa only [writeBytes_length, Nat.zero_add] using drop_advance t0
  have hr1 : readNat (wireOfNoModel model rsS rsA rsU) 2 2 = 0 := by
    rw [readNat_writeBytes t1]
    exact Nat.zero_mod _
  have hdm : decodeModel (wireOfNoModel model rsS rsA rsU) 2 = .ok (2 + 2, none) := by
    unfold decodeModel
    rw [hr1]
    rfl
  have t3 : (wireOfNoModel model rsS rsA rsU).drop (2 + 2) =
      writeBytes 2 (sectionBytes model rsS).length ++
        (sectionBytes model rsS ++ wireAttachTail model rsA rsU) := by
    simpa only [writeBytes_length] using drop_advance t1
  have hrS : readNat (wireOfNoModel model rsS rsA rsU) (2 + 2) 2 =
      (sectionBytes model rsS).length := by
    rw [readNat_writeBytes t3]
    exact Nat.mod_eq_of_lt (by simpa using hs)
  have t4 : (wireOfNoModel model rsS rsA rsU).drop (2 + 2 + 2) =
      sectionBytes model rsS ++ wireAttachTail model rsA rsU := by
    simpa only [writeBytes_length] using drop_advance t3
  have hspawnRec := decodeEntityRecords_round (q := rsS)
    (E := 2 + 2 + (sectionBytes model rsS).length) hsOK t4 (by omega)
  have hsp : decodeEntityComponentsPart (wireOfNoModel model rsS rsA rsU) model (2 + 2) =
      (2 + 2 + 2 + (sectionBytes model rsS).length, rsS) := by
    simp only [decodeEntityComponentsPart]
    rw [hrS]
    exact hspawnRec
  have t5 : (wireOfNoModel model rsS rsA rsU).drop
      (2 + 2 + 2 + (sectionBytes model rsS).length) =
      writeBytes 2 (sectionBytes model rsA).length ++
        (sectionBytes model rsA ++ wireUpdateTail model rsU) := drop_advance t4
  have hrA : readNat (wireOfNoModel model rsS rsA rsU)
      (2 + 2 + 2 + (sectionBytes model rsS).length) 2 =
      (sectionBytes model rsA).length := by
    rw [readNat_writeBytes t5]
    exact Nat.mod_eq_of_lt (by simpa using ha)
  have t6 : (wireOfNoModel model rsS rsA rsU).drop
      (2 + 2 + 2 + (sectionBytes model rsS).length + 2) =
      sectionBytes model rsA ++ wireUpdateTail model rsU := by
    simpa only [writeBytes_length] using drop_advance t5
  have hattachRec := decodeEntityRecords_round (q := rsA)
    (E := 2 + 2 + 2 + (sectionBytes model rsS).length + (sectionBytes model rsA).length)
    haOK t6 (by omega)
  have hat : decodeEntityComponentsPart (wireOfNoModel model rsS rsA rsU) model
      (2 + 2 + 2 + (sectionBytes model rsS).length) =
      (2 + 2 + 2 + (sectionBytes model rsS).length + 2 + (sectionBytes model rsA).length,
        rsA) := by
    simp only [decodeEntityComponentsPart]
    rw [hrA]
    exact hattachRec
  have t7 : (wireOfNoModel model rsS rsA rsU).drop
      (2 + 2 + 2 + (sectionBytes model rsS).length + 2 + (sectionBytes model rsA).length) =
      writeBytes 2 (sectionBytes model rsU).length ++
        (sectionBytes model rsU ++ wireDetachTail) := drop_advance t6
  have hrU : readNat (wireOfNoModel model rsS rsA rsU)
      (2 + 2 + 2 + (sectionBytes model rsS).length + 2 + (sectionBytes model rsA).length)
      2 = (sectionBytes model rsU).length := by
    rw [readNat_writeBytes t7]
    exact Nat.mod_eq_of_lt (by simpa using hu)
  have t8 : (wireOfNoModel model rsS rsA rsU).drop
      (2 + 2 + 2 + (sectionBytes model rsS).length + 2 + (sectionBytes model rsA).length +
        2) = sectionBytes model rsU ++ wireDetachTail := by
    simpa only [writeBytes_length] using drop_advance t7
  have hupdateRec := decodeEntityRecords_round (q := rsU)
    (E := 2 + 2 + 2 + (sectionBytes model rsS).length + 2 +
      (sectionBytes model rsA).length + (sectionBytes model rsU).length)
    huOK t8 (by omega)
  have hup : decodeEntityComponentsPart (wireOfNoModel model rsS rsA rsU) model
      (2 + 2 + 2 + (sectionBytes model rsS).length + 2 + (sectionBytes model rsA).length) =
      (2 + 2 + 2 + (sectionBytes model rsS).length + 2 + (sectionBytes model rsA).length +
        2 + (sectionBytes model rsU).length, rsU) := by
    simp only [decodeEntityComponentsPart]
    rw [hrU]
    exact hupdateRec
  have t9 : (wireOfNoModel model rsS rsA rsU).drop
      (2 + 2 + 2 + (sectionBytes model rsS).length + 2 + (sectionBytes model rsA).length +
        2 + (sectionBytes model rsU).length) =
      writeBytes 2 0 ++ (writeBytes 2 0 ++ writeBytes 2 0) := drop_advance t8
  have hrP : readNat (wireOfNoModel model rsS rsA rsU)
      (2 + 2 + 2 + (sectionBytes model rsS).length + 2 + (sectionBytes model rsA).length +
        2 + (sectionBytes model rsU).length) 2 = 0 := by
    rw [readNat_writeBytes t9]
    exact Nat.zero_mod _
  have t10 : (wireOfNoModel model rsS rsA rsU).drop
      (2 + 2 + 2 + (sectionBytes model rsS).length + 2 + (sectionBytes model rsA).length +
        2 + (sectionBytes model rsU).length + 2) = writeBytes 2 0 ++ writeBytes 2 0 := by
    simpa only [writeBytes_length] using drop_advance t9
  have hrDet : readNat (wireOfNoModel model rsS rsA rsU)
      (2 + 2 + 2 + (sectionBytes model rsS).length + 2 + (sectionBytes model rsA).length +
        2 + (sectionBytes model rsU).length + 0 + 2) 2 = 0 := by
    rw [readNat_writeBytes t10]
    exact Nat.zero_mod _
  have t11 : (wireOfNoModel model rsS rsA rsU).drop
      (2 + 2 + 2 + (sectionBytes model rsS).length + 2 + (sectionBytes model rsA).length +
        2 + (sectionBytes model rsU).length + 2 + 2) =
      writeBytes 2 0 ++ ([] : List Nat) := by
    simpa only [writeBytes_length, List.append_nil] using drop_advance t10
  have hrDes : readNat (wireOfNoModel model rsS rsA rsU)
      (2 + 2 + 2 + (sectionBytes model rsS).length + 2 + (sectionBytes model rsA).length +
        2 + (sectionBytes model rsU).length + 0 + 2 + 2) 2 = 0 := by
    rw [readNat_writeBytes t11]
    exact Nat.zero_mod _
  have hdet : decodeDetach (wireOfNoModel model rsS rsA rsU)
      (2 + 2 + 2 + (sectionBytes model rsS).length + 2 + (sectionBytes model rsA).length +
        2 + (sectionBytes model rsU).length + 0 + 2) =
      (2 + 2 + 2 + (sectionBytes model rsS).length + 2 + (sectionBytes model rsA).length +
        2 + (sectionBytes model rsU).length + 0 + 2 + 2, []) := by
    simp only [decodeDetach]
    rw [hrDet]
    exact decodeDetachRecords_stop (by omega)
  have hdes : decodeDestroy (wireOfNoModel model rsS rsA rsU)
      (2 + 2 + 2 + (sectionBytes model rsS).length + 2 + (sectionBytes model rsA).length +
        2 + (sectionBytes model rsU).length + 0 + 2 + 2) =
      (2 + 2 + 2 + (sectionBytes model rsS).length + 2 + (sectionBytes model rsA).length +
        2 + (sectionBytes model rsU).length + 0 + 2 + 2 + 2, []) := by
    simp only [decodeDestroy]
    rw [hrDes]
    exact decodeDestroyRecords_stop (by omega)
  have hif : ¬ ((0 : Nat) > 0) := by omega
  unfold decodeMessage
  simp only [hr0, if_neg hif]
  rw [hdm]
  dsimp only
  simp only [Option.orElse]
  rw [hsp]
  dsimp only
  rw [hat]
  dsimp only
  rw [hup]
  dsimp only
  rw [hrP]
  rw [hdet]
  dsimp only
  rw [hdes]
  simp

/-- Once the stream carries a model, the caller-supplied model argument is
irrelevant to the decode result. -/
theorem decodeMessage_arg_irrel (buffer : List Nat) (o : Nat) (mm : Model)
    (a1 a2 : Option Model)
    (h : decodeModel buffer
        (if readNat buffer 0 2 > 0 then 2 + readNat buffer 0 2 else 2) =
      .ok (o, some mm)) :
    decodeMessage buffer a1 = decodeMessage buffer a2 := by
  unfold decodeMessage
  simp only [h]
  simp only [Option.orElse]

/-- The wire bytes of a message assembled by a spawn/attach/update call
sequence and encoded with the model excluded. -/
def opsWireNoModel (model : Model) (ops : List SectionOp) : List Nat :=
  wireOfNoModel model (spawnsOf ops) (attachesOf ops) (updatesOf ops)

/-- C7: over buffers produced by the encoder from any call sequence,
decodeMessage fails exactly when the model section is empty (encoded with
includeModel = false) and no model argument is supplied; the failure is the
source's assert and the event list is empty, so no entity-section handler
has run.  In the other three configurations — model argument supplied,
model present in-stream, or both — the decode succeeds and reproduces
every record. -/
theorem c7_model_required (model : Model) (ops : List SectionOp) (m : Message)
    (hwf : modelWF model = true) (hne : encodeModel model ≠ [])
    (hmlen : (encodeModel model).length < 65536)
    (hops : ops.all (opOK model) = true)
    (happ : applyOps (createMessage model) ops = .ok m)
    (hs : (sectionBytes model (spawnsOf ops)).length < 65536)
    (ha : (sectionBytes model (attachesOf ops)).length < 65536)
    (hu : (sectionBytes model (updatesOf ops)).length < 65536) :
    encodeMessage m false = .ok (opsWireNoModel model ops, m) ∧
    decodeMessage (opsWireNoModel model ops) none =
      ([], some "Failed to decode network message: model not provided to decodeMessage() nor, was it encoded in message") ∧
    decodeMessage (opsWireNoModel model ops) (some model) =
      ((spawnsOf ops).map (fun r => DecodeEvent.onCreate r.1 r.2) ++
        ((attachesOf ops).map (fun r => DecodeEvent.onAttach r.1 r.2) ++
         ((updatesOf ops).map (fun r => DecodeEvent.onUpdate r.1 r.2) ++
          [DecodeEvent.onPatch (2 + 2 + 2 +
            (sectionBytes model (spawnsOf ops)).length + 2 +
            (sectionBytes model (attachesOf ops)).length + 2 +
            (sectionBytes model (updatesOf ops)).length)])), none) ∧
    ∀ marg : Option Model,
      decodeMessage (opsWire model ops) marg =
        (DecodeEvent.onModel model ::
          ((spawnsOf ops).map (fun r => DecodeEvent.onCreate r.1 r.2) ++
           ((attachesOf ops).map (fun r => DecodeEvent.onAttach r.1 r.2) ++
            ((updatesOf ops).map (fun r => DecodeEvent.onUpdate r.1 r.2) ++
             [DecodeEvent.onPatch (2 + 2 + (encodeModel model).length + 2 +
               (sectionBytes model (spawnsOf ops)).length + 2 +
               (sectionBytes model (attachesOf ops)).length +
               2 + (sectionBytes model (updatesOf ops)).length)]))), none) := by
  obtain ⟨s1, s2, s3, s4, s5, s6, s7, s8, s9, s10, s11, s12, s13, s14⟩ :=
    applyOps_shape (z := createMessage model) (by exact hops) happ
  have hTickBL : m.partTick.byteLength = 0 := by rw [s7]; rfl
  have hTickPP : partPayload m.partTick = [] := by rw [s7]; rfl
  have hSpawnD : m.partSpawn.data =
      ((spawnsOf ops).map (fun r => recordEntries model r.1 r.2)).flatten := by
    rw [s1]
    simp [createMessage, createPart]
  have hSpawnBL : m.partSpawn.byteLength = (sectionBytes model (spawnsOf ops)).length := by
    rw [s2]
    simp [createMessage, createPart]
  have hSpawnPP : partPayload m.partSpawn = sectionBytes model (spawnsOf ops) := by
    simp only [partPayload, hSpawnD]
    exact sectionEntries_payload model _
  have hAttachD : m.partAttach.data =
      ((attachesOf ops).map (fun r => recordEntries model r.1 r.2)).flatten := by
    rw [s3]
    simp [createMessage, createPart]
  have hAttachBL : m.partAttach.byteLength =
      (sectionBytes model (attachesOf ops)).length := by
    rw [s4]
    simp [createMessage, createPart]
  have hAttachPP : partPayload m.partAttach = sectionBytes model (attachesOf ops) := by
    simp only [partPayload, hAttachD]
    exact sectionEntries_payload model _
  have hUpdateD : m.partUpdate.data =
      ((updatesOf ops).map (fun r => recordEntries model r.1 r.2)).flatten := by
    rw [s5]
    simp [createMessage, createPart]
  have hUpdateBL : m.partUpdate.byteLength =
      (sectionBytes model (updatesOf ops)).length := by
    rw [s6]
    simp [createMessage, createPart]
  have hUpdatePP : partPayload m.partUpdate = sectionBytes model (updatesOf ops) := by
    simp only [partPayload, hUpdateD]
    exact sectionEntries_payload model _
  have hPatchBL : m.partPatch.byteLength = 0 := by rw [s9]; rfl
  have hCME : m.changeMapByEntity = [] := s10
  have hDetachBL : m.partDetach.byteLength = 0 := by rw [s11]; rfl
  have hDetachPP : partPayload m.partDetach = [] := by rw [s11]; rfl
  have hDestroyBL : m.partDestroy.byteLength = 0 := by rw [s12]; rfl
  have hDestroyPP : partPayload m.partDestroy = [] := by rw [s12]; rfl
  have hpl : encodePatchBytes m.modelFlat m.changeMapByEntity = .ok [] := by
    rw [hCME]
    rfl
  have hfull := encodePartsS_full m false hpl
  rw [hTickBL, hTickPP, hSpawnBL, hSpawnPP, hAttachBL, hAttachPP,
    hUpdateBL, hUpdatePP, hPatchBL, hDetachBL, hDetachPP, hDestroyBL, hDestroyPP] at hfull
  have hBeq : writeBytes 2 0 ++ [] ++
      (if false then writeBytes 2 m.partModel.byteLength ++ partPayload m.partModel
       else writeBytes 2 0) ++
      (writeBytes 2 (sectionBytes model (spawnsOf ops)).length ++
        sectionBytes model (spawnsOf ops)) ++
      (writeBytes 2 (sectionBytes model (attachesOf ops)).length ++
        sectionBytes model (attachesOf ops)) ++
      (writeBytes 2 (sectionBytes model (updatesOf ops)).length ++
        sectionBytes model (updatesOf ops)) ++
      (writeBytes 2 0 ++ []) ++ (writeBytes 2 0 ++ []) ++ (writeBytes 2 0 ++ []) =
      opsWireNoModel model ops := by
    simp [opsWireNoModel, wireOfNoModel, wireSpawnTail, wireAttachTail, wireUpdateTail,
      wireDetachTail, List.append_assoc]
  rw [hBeq] at hfull
  have hwirelen : (opsWireNoModel model ops).length = encodeMessageLength m false := by
    simp only [encodeMessageLength, partsIndexList, List.foldl, partAt, hTickBL,
      hSpawnBL, hAttachBL, hUpdateBL, hPatchBL, hDetachBL, hDestroyBL]
    simp [opsWireNoModel, wireOfNoModel, wireSpawnTail, wireAttachTail, wireUpdateTail,
      wireDetachTail]
    omega
  have hEnc : encodeMessage m false = .ok (opsWireNoModel model ops, m) := by
    unfold encodeMessage
    rw [hfull]
    dsimp only
    rw [hwirelen, Nat.sub_self]
    simp
  refine ⟨hEnc, ?_, ?_, ?_⟩
  · exact decodeMessage_noModel_none model (spawnsOf ops) (attachesOf ops) (updatesOf ops)
  · exact decodeMessage_wire_noModel model (spawnsOf ops) (attachesOf ops) (updatesOf ops)
      (spawnsOf_ok hops) (attachesOf_ok hops) (updatesOf_ok hops) hs ha hu
  · intro marg
    have t0 : (opsWire model ops).drop 0 = writeBytes 2 0 ++
        wireModelTail model (spawnsOf ops) (attachesOf ops) (updatesOf ops) := rfl
    have hr0 : readNat (opsWire model ops) 0 2 = 0 := by
      rw [readNat_writeBytes t0]
      exact Nat.zero_mod _
    have t1 : (opsWire model ops).drop 2 =
        wireModelTail model (spawnsOf ops) (attachesOf ops) (updatesOf ops) := by
      simpa only [writeBytes_length, Nat.zero_add] using drop_advance t0
    rw [wireModelTail] at t1
    have hdm := decodeModel_round hwf hmlen hne t1
    have hirr := decodeMessage_arg_irrel (opsWire model ops)
      (2 + 2 + (encodeModel model).length) model marg none (by rw [hr0]; exact hdm)
    rw [hirr]
    exact decodeMessage_wire model (spawnsOf ops) (attachesOf ops) (updatesOf ops)
      hwf hne hmlen (spawnsOf_ok hops) (attachesOf_ok hops) (updatesOf_ok hops) hs ha hu

/-- A concrete call sequence for the model-required witness. -/
def c7Ops : List SectionOp := [.spawnOp 7 [{ tid := 0, values := [42] }]]

/-- The message assembled by the model-required witness call sequence. -/
def c7Msg : Message :=
  ((applyOps (createMessage demoModel) c7Ops).toOption).getD (createMessage demoModel)

/-- C7 (witness): at a concrete call sequence, the model-less buffer fails to
decode with no events when no model argument is given, and decodes fully in
the three other configurations; every hypothesis evaluated. -/
theorem c7_model_required_witness :
    modelWF demoModel = true ∧ encodeModel demoModel ≠ [] ∧
    (encodeModel demoModel).length < 65536 ∧ c7Ops.all (opOK demoModel) = true ∧
    applyOps (createMessage demoModel) c7Ops = .ok c7Msg ∧
    (sectionBytes demoModel (spawnsOf c7Ops)).length < 65536 ∧
    (sectionBytes demoModel (attachesOf c7Ops)).length < 65536 ∧
    (sectionBytes demoModel (updatesOf c7Ops)).length < 65536 ∧
    (encodeMessage c7Msg false = .ok (opsWireNoModel demoModel c7Ops, c7Msg) ∧
     decodeMessage (opsWireNoModel demoModel c7Ops) none =
       ([], some "Failed to decode network message: model not provided to decodeMessage() nor, was it encoded in message") ∧
     decodeMessage (opsWireNoModel demoModel c7Ops) (some demoModel) =
       ((spawnsOf c7Ops).map (fun r => DecodeEvent.onCreate r.1 r.2) ++
         ((attachesOf c7Ops).map (fun r => DecodeEvent.onAttach r.1 r.2) ++
          ((updatesOf c7Ops).map (fun r => DecodeEvent.onUpdate r.1 r.2) ++
           [DecodeEvent.onPatch (2 + 2 + 2 +
             (sectionBytes demoModel (spawnsOf c7Ops)).length + 2 +
             (sectionBytes demoModel (attachesOf c7Ops)).length + 2 +
             (sectionBytes demoModel (updatesOf c7Ops)).length)])), none) ∧
     decodeMessage (opsWire demoModel c7Ops) (some demoModel) =
       (DecodeEvent.onModel demoModel ::
         ((spawnsOf c7Ops).map (fun r => DecodeEvent.onCreate r.1 r.2) ++
          ((attachesOf c7Ops).map (fun r => DecodeEvent.onAttach r.1 r.2) ++
           ((updatesOf c7Ops).map (fun r => DecodeEvent.onUpdate r.1 r.2) ++
            [DecodeEvent.onPatch (2 + 2 + (encodeModel demoModel).length + 2 +
              (sectionBytes demoModel (spawnsOf c7Ops)).length + 2 +
              (sectionBytes demoModel (attachesOf c7Ops)).length +
              2 + (sectionBytes demoModel (updatesOf c7Ops)).length)]))), none)) :=
  ⟨by decide, by decide, by decide, by decide, rfl, by decide, by decide, by decide, by
    obtain ⟨h1, h2, h3, h4⟩ :=
      c7_model_required demoModel c7Ops c7Msg (by decide) (by decide) (by decide)
        (by decide) rfl (by decide) (by decide) (by decide)
    exact ⟨h1, h2, h3, h4 (some demoModel)⟩⟩

end Javelin
